import Mathlib

/-!
Verification of the langchainjs-mcp-adapters core: the JSON-schema normalizer
(`_ensureValidToolSchema` / `fixArrayProperties`), the call-result converter
(`_convertCallToolResult`), the input coercion (`_normalizeInput`), the
multi-server connection registry (`MultiServerMCPClient`) and the resource
utilities (`listResources`), embedded shallowly over a JSON value model.
-/

set_option maxHeartbeats 1000000

/-- JSON values, the data the adapter operates on.  JavaScript objects are
modelled as ordered association lists of fields (a JS object has no duplicate
keys; lookups take the first occurrence). -/
inductive Json where
  | null
  | bool (b : Bool)
  | num (n : Int)
  | str (s : String)
  | arr (elems : List Json)
  | obj (fields : List (String × Json))

namespace Json

mutual

/-- Structural equality of JSON values. -/
def beqJ : Json → Json → Bool
  | .null, .null => true
  | .bool x, .bool y => x == y
  | .num x, .num y => x == y
  | .str x, .str y => x == y
  | .arr xs, .arr ys => beqL xs ys
  | .obj fx, .obj fy => beqF fx fy
  | _, _ => false

def beqL : List Json → List Json → Bool
  | [], [] => true
  | a :: as, b :: bs => beqJ a b && beqL as bs
  | _, _ => false

def beqF : List (String × Json) → List (String × Json) → Bool
  | [], [] => true
  | (ka, va) :: as, (kb, vb) :: bs => ka == kb && beqJ va vb && beqF as bs
  | _, _ => false

end

mutual

theorem beqJ_iff_eq : ∀ a b : Json, beqJ a b = true ↔ a = b
  | .null, .null => by simp [beqJ]
  | .bool _, .bool _ => by simp [beqJ]
  | .num _, .num _ => by simp [beqJ]
  | .str _, .str _ => by simp [beqJ]
  | .arr xs, .arr ys => by simp [beqJ, beqL_iff_eq xs ys]
  | .obj fx, .obj fy => by simp [beqJ, beqF_iff_eq fx fy]
  | .null, .bool _ | .null, .num _ | .null, .str _ | .null, .arr _ | .null, .obj _
  | .bool _, .null | .bool _, .num _ | .bool _, .str _ | .bool _, .arr _ | .bool _, .obj _
  | .num _, .null | .num _, .bool _ | .num _, .str _ | .num _, .arr _ | .num _, .obj _
  | .str _, .null | .str _, .bool _ | .str _, .num _ | .str _, .arr _ | .str _, .obj _
  | .arr _, .null | .arr _, .bool _ | .arr _, .num _ | .arr _, .str _ | .arr _, .obj _
  | .obj _, .null | .obj _, .bool _ | .obj _, .num _ | .obj _, .str _ | .obj _, .arr _ => by
    simp [beqJ]

theorem beqL_iff_eq : ∀ a b : List Json, beqL a b = true ↔ a = b
  | [], [] => by simp [beqL]
  | x :: xs, y :: ys => by
    simp [beqL, beqJ_iff_eq x y, beqL_iff_eq xs ys]
  | [], _ :: _ => by simp [beqL]
  | _ :: _, [] => by simp [beqL]

theorem beqF_iff_eq : ∀ a b : List (String × Json), beqF a b = true ↔ a = b
  | [], [] => by simp [beqF]
  | (ka, va) :: as, (kb, vb) :: bs => by
    simp [beqF, beqJ_iff_eq va vb, beqF_iff_eq as bs]
  | [], _ :: _ => by simp [beqF]
  | _ :: _, [] => by simp [beqF]

end

instance : DecidableEq Json := fun a b =>
  decidable_of_iff (beqJ a b = true) (beqJ_iff_eq a b)

/-- JavaScript truthiness of a value (`undefined` is identified with `null`;
`NaN` is not modelled). -/
def truthy : Json → Bool
  | .null => false
  | .bool b => b
  | .num n => n != 0
  | .str s => s != ""
  | .arr _ => true
  | .obj _ => true

end Json

/-- First-occurrence lookup in a field list (JS property read). -/
def lookupF {α : Type} : List (String × α) → String → Option α
  | [], _ => none
  | (k', v') :: rest, k => if k' = k then some v' else lookupF rest k

/-- JS property write: replaces the value at an existing key in place, or
appends the key at the end (JS insertion order). -/
def setF {α : Type} : List (String × α) → String → α → List (String × α)
  | [], k, v => [(k, v)]
  | (k', v') :: rest, k, v => if k' = k then (k, v) :: rest else (k', v') :: setF rest k v

/-- Property read on a value: only objects have properties. -/
def Json.getF : Json → String → Option Json
  | .obj fs, k => lookupF fs k
  | _, _ => none

/-- Truthiness of an optional value (an absent JS property is `undefined`,
which is falsy). -/
def otruthy : Option Json → Bool
  | none => false
  | some v => v.truthy

theorem lookupF_setF_self {α : Type} (l : List (String × α)) (k : String) (v : α) :
    lookupF (setF l k v) k = some v := by
  induction l with
  | nil => simp [setF, lookupF]
  | cons hd tl ih =>
    obtain ⟨k', v'⟩ := hd
    by_cases h : k' = k <;> simp [setF, lookupF, h, ih]

theorem lookupF_setF_ne {α : Type} (l : List (String × α)) (k k' : String) (v : α)
    (h : k ≠ k') : lookupF (setF l k v) k' = lookupF l k' := by
  have h' : ¬k = k' := h
  induction l with
  | nil => simp [setF, lookupF, h']
  | cons hd tl ih =>
    obtain ⟨k₀, v₀⟩ := hd
    by_cases h0 : k₀ = k
    · subst h0
      simp [setF, lookupF, h']
    · have h'' : ¬k' = k := fun hh => h hh.symm
      by_cases h1 : k₀ = k' <;> simp [setF, lookupF, h0, h1, h'', ih]

theorem setF_lookup_self {α : Type} (l : List (String × α)) (k : String) (v : α)
    (h : lookupF l k = some v) : setF l k v = l := by
  induction l with
  | nil => simp [lookupF] at h
  | cons hd tl ih =>
    obtain ⟨k', v'⟩ := hd
    by_cases h0 : k' = k
    · subst h0
      simp [lookupF] at h
      simp [setF, h]
    · simp [lookupF, h0] at h
      simp [setF, h0, ih h]

theorem sizeOf_lookupF (l : List (String × Json)) (k : String) (v : Json)
    (h : lookupF l k = some v) : sizeOf v < sizeOf l := by
  induction l with
  | nil => simp [lookupF] at h
  | cons hd tl ih =>
    obtain ⟨k', v'⟩ := hd
    by_cases h0 : k' = k
    · simp [lookupF, h0] at h
      subst h
      simp
      omega
    · simp [lookupF, h0] at h
      have := ih h
      simp
      omega

theorem sizeOf_mem_pair (l : List (String × Json)) (k : String) (v : Json)
    (h : (k, v) ∈ l) : sizeOf v < sizeOf l := by
  induction l with
  | nil => simp at h
  | cons hd tl ih =>
    rcases List.mem_cons.mp h with h | h
    · subst h
      simp
      omega
    · have := ih h
      simp
      omega

theorem sizeOf_mem_elem (l : List Json) (v : Json) (h : v ∈ l) : sizeOf v < sizeOf l := by
  induction l with
  | nil => simp at h
  | cons hd tl ih =>
    rcases List.mem_cons.mp h with h | h
    · subst h
      simp
      omega
    · have := ih h
      simp
      omega

theorem snd_mem_of_mem_enumFrom {α : Type} {l : List α} {n : Nat} {p : Nat × α}
    (h : p ∈ l.enumFrom n) : p.2 ∈ l := by
  induction l generalizing n with
  | nil => simp [List.enumFrom] at h
  | cons hd tl ih =>
    rcases List.mem_cons.mp h with h | h
    · subst h
      simp
    · exact List.mem_cons.mpr (Or.inr (ih h))

theorem snd_mem_of_mem_enum {α : Type} {l : List α} {p : Nat × α}
    (h : p ∈ l.enum) : p.2 ∈ l :=
  snd_mem_of_mem_enumFrom h

/-! ## The schema normalizer (src/tools.ts)

`fixArrayProperties` (lines 162-280) mutates a schema object in place: it gives
every array-typed object lacking a truthy `items` a default item schema chosen
by the field name, writes `parent` / `name` bookkeeping annotations on each
object-valued child it visits, and recurses through `properties`, `items`,
`patternProperties` and `oneOf`/`anyOf`/`allOf`.

The embedding `fixA` returns the resulting JSON tree paired with a flag that
records whether any `parent` annotation was written on an object child.  The
`parent` annotation holds a reference to the enclosing schema object, so the
flag being `true` means the in-memory result is a cyclic structure (which
`JSON.stringify` refuses to serialize); the value component is the tree with
the unrepresentable `parent` back-references elided.  `name` annotations are
ordinary string fields and are kept in the value: the caller passes the name
to write as the `nm` argument and `fixA` performs the write on entry (source
line 214 writes `prop.name = key` immediately before the recursive call).
A `parent` annotation written on an array value is invisible to
`JSON.stringify` (only indexed elements of an array are serialized) and the
recursion into a non-object is a no-op, so only object-valued children are
traversed and flagged. -/

/-- The item schema written for a bare array field named `actions`
(source lines 181-187), as it stands after the recursive processing of the
freshly written value (lines 228-240): that recursion writes `name`
annotations on the two string-typed properties and changes nothing else
(`fixA_actionsItemsRaw` below proves this inlining faithful). -/
def actionsItemsDone : Json :=
  Json.obj [("type", Json.str "object"),
    ("properties", Json.obj
      [("type", Json.obj [("type", Json.str "string"), ("name", Json.str "type")]),
       ("selector", Json.obj [("type", Json.str "string"), ("name", Json.str "selector")])])]

/-- The literal item schema the source writes for `actions` (lines 181-187),
before the recursive pass over it. -/
def actionsItemsRaw : Json :=
  Json.obj [("type", Json.str "object"),
    ("properties", Json.obj
      [("type", Json.obj [("type", Json.str "string")]),
       ("selector", Json.obj [("type", Json.str "string")])])]

/-- The default string item schema (lines 191 and 195). -/
def strItems : Json := Json.obj [("type", Json.str "string")]

/-- Collect the processed entries of a `properties`/`patternProperties`
object: the repaired field list together with whether any entry was an
object (and hence was annotated). -/
def combineFields (l : List ((String × Json) × Bool)) : Json × Bool :=
  (Json.obj (l.map Prod.fst), l.any Prod.snd)

/-- Collect the processed elements of an array of subschemas. -/
def combineElems (l : List (Json × Bool)) : Json × Bool :=
  (Json.arr (l.map Prod.fst), l.any Prod.snd)

/-- One traversal section of `fixArrayProperties`: when the section applies
(`repl = some (v, b)`), the repaired value `v` is written back at `key` and
the annotation flag `b` is accumulated; otherwise the object passes through
unchanged. -/
def sect (key : String) (repl : Option (Json × Bool)) (cur : List (String × Json) × Bool) :
    List (String × Json) × Bool :=
  match repl with
  | some (v, b) => (setF cur.1 key v, cur.2 || b)
  | none => cur

def finishObj (p : List (String × Json) × Bool) : Json × Bool :=
  (Json.obj p.1, p.2)

/-- Embedding of `fixArrayProperties` (src/tools.ts lines 162-280).
`nm` is the `name` annotation the caller writes on this object just before
recursing (line 214), `pp` the `property` component of the `parent`
annotation it writes (lines 213, 232, 248, 265). -/
def fixA (nm pp : Option String) (j : Json) : Json × Bool :=
  match j with
  | .obj fs =>
    -- the caller's prop.name = key write (line 214), applied on entry
    let fs0 := match nm with
      | some n => setF fs "name" (Json.str n)
      | none => fs
    -- obj.name as read at line 179/189: the just-written name, or the
    -- object's own name field when the caller wrote none
    let effName : Option Json := match nm with
      | some n => some (Json.str n)
      | none => lookupF fs "name"
    -- line 172: obj.type === "array" && !obj.items
    let bare : Bool :=
      decide (lookupF fs "type" = some (Json.str "array")) && !otruthy (lookupF fs "items")
    let isActions : Bool :=
      decide (effName = some (Json.str "actions")) || decide (pp = some "actions")
    let isFormats : Bool :=
      decide (effName = some (Json.str "formats")) || decide (pp = some "formats")
    -- lines 172-198: write the missing items schema; the freshly written
    -- object is then annotated and recursed into at lines 228-240, whose
    -- effect is inlined here (see actionsItemsDone / fixA_strItems)
    let step1 : List (String × Json) × Bool :=
      if bare then
        if isActions then (setF fs0 "items" actionsItemsDone, true)
        else if isFormats then (setF fs0 "items" strItems, true)
        else (setF fs0 "items" strItems, true)
      else (fs0, false)
    -- lines 201-225: recurse into each object-valued property, writing its
    -- name and parent annotations first (typeof [] is "object", so an
    -- array-valued properties is traversed by its index-keyed entries)
    let step2 := sect "properties"
      (match _h : lookupF fs "properties" with
       | some (.obj props) =>
         some (combineFields (props.attach.map (fun p =>
           match p.1.2 with
           | .obj _ => ((p.1.1, (fixA (some p.1.1) (some p.1.1) p.1.2).1), true)
           | _ => (p.1, false))))
       | some (.arr elems) =>
         some (combineElems (elems.enum.attach.map (fun p =>
           match p.1.2 with
           | .obj _ => ((fixA (some (toString p.1.1)) (some (toString p.1.1)) p.1.2).1, true)
           | _ => (p.1.2, false))))
       | _ => none) step1
    -- lines 228-240: recurse into a pre-existing object-valued items schema
    -- (when step1 wrote items, that recursion is already inlined there)
    let step3 :=
      if bare then step2
      else
        sect "items"
          (match _h : lookupF fs "items" with
           | some (.obj itfs) => some ((fixA none (some "items") (Json.obj itfs)).1, true)
           | _ => none) step2
    -- lines 243-256: patternProperties branches
    let step4 := sect "patternProperties"
      (match _h : lookupF fs "patternProperties" with
       | some (.obj pfs) =>
         some (combineFields (pfs.attach.map (fun p =>
           match p.1.2 with
           | .obj _ =>
             ((p.1.1, (fixA none (some ("patternProperties[" ++ p.1.1 ++ "]")) p.1.2).1), true)
           | _ => (p.1, false))))
       | some (.arr elems) =>
         some (combineElems (elems.enum.attach.map (fun p =>
           match p.1.2 with
           | .obj _ =>
             ((fixA none (some ("patternProperties[" ++ toString p.1.1 ++ "]")) p.1.2).1, true)
           | _ => (p.1.2, false))))
       | _ => none) step3
    -- lines 259-273: oneOf / anyOf / allOf members (only a genuine JS array
    -- passes Array.isArray; non-object members raise on the annotation write
    -- in strict mode and the error is caught, so only object members recurse)
    let step5 := sect "oneOf"
      (match _h : lookupF fs "oneOf" with
       | some (.arr os) =>
         some (combineElems (os.enum.attach.map (fun p =>
           match p.1.2 with
           | .obj _ => ((fixA none (some ("oneOf[" ++ toString p.1.1 ++ "]")) p.1.2).1, true)
           | _ => (p.1.2, false))))
       | _ => none) step4
    let step6 := sect "anyOf"
      (match _h : lookupF fs "anyOf" with
       | some (.arr os) =>
         some (combineElems (os.enum.attach.map (fun p =>
           match p.1.2 with
           | .obj _ => ((fixA none (some ("anyOf[" ++ toString p.1.1 ++ "]")) p.1.2).1, true)
           | _ => (p.1.2, false))))
       | _ => none) step5
    let step7 := sect "allOf"
      (match _h : lookupF fs "allOf" with
       | some (.arr os) =>
         some (combineElems (os.enum.attach.map (fun p =>
           match p.1.2 with
           | .obj _ => ((fixA none (some ("allOf[" ++ toString p.1.1 ++ "]")) p.1.2).1, true)
           | _ => (p.1.2, false))))
       | _ => none) step6
    finishObj step7
  | j => (j, false)
termination_by sizeOf j
decreasing_by
  all_goals simp_wf
  all_goals
    first
    | (have h1 := sizeOf_lookupF _ _ _ _h
       have h2 := sizeOf_mem_pair _ p.1.1 p.1.2 (by simpa using p.2)
       simp at h1 ⊢
       omega)
    | (have h1 := sizeOf_lookupF _ _ _ _h
       have h2 := sizeOf_mem_elem _ p.1.2 (snd_mem_of_mem_enum (by simpa using p.2))
       simp at h1 ⊢
       omega)
    | (have h1 := sizeOf_lookupF _ _ _ _h
       simp at h1 ⊢
       omega)

/-- The recursive pass over a freshly written `{type: "string"}` items value
(lines 228-240) changes nothing: it has no array type, no children, and no
annotation is written below it.  This justifies inlining it in `fixA`. -/
theorem fixA_strItems : fixA none (some "items") strItems = (strItems, false) := by
  simp [fixA, strItems, setF, lookupF, otruthy, Json.truthy, sect, combineFields,
    combineElems, finishObj]

/-- The recursive pass over the freshly written `actions` items value writes
`name` annotations on its two string-typed properties and nothing else,
yielding `actionsItemsDone`.  This justifies inlining it in `fixA`. -/
theorem fixA_actionsItemsRaw :
    fixA none (some "items") actionsItemsRaw = (actionsItemsDone, true) := by
  simp [fixA, actionsItemsRaw, actionsItemsDone, setF, lookupF, otruthy, Json.truthy,
    sect, combineFields, combineElems, finishObj]

mutual

/-- `JSON.parse(JSON.stringify(x))` on a JSON tree: a structural deep copy
(no `undefined` values, functions or cycles exist in the model). -/
def deepCopy : Json → Json
  | .null => .null
  | .bool b => .bool b
  | .num n => .num n
  | .str s => .str s
  | .arr es => .arr (deepCopyList es)
  | .obj fs => .obj (deepCopyFields fs)

def deepCopyList : List Json → List Json
  | [] => []
  | x :: xs => deepCopy x :: deepCopyList xs

def deepCopyFields : List (String × Json) → List (String × Json)
  | [] => []
  | (k, v) :: xs => (k, deepCopy v) :: deepCopyFields xs

end

mutual

theorem deepCopy_eq_id : ∀ j : Json, deepCopy j = j
  | .null => rfl
  | .bool _ => rfl
  | .num _ => rfl
  | .str _ => rfl
  | .arr es => by simp [deepCopy, deepCopyList_eq_id es]
  | .obj fs => by simp [deepCopy, deepCopyFields_eq_id fs]

theorem deepCopyList_eq_id : ∀ l : List Json, deepCopyList l = l
  | [] => rfl
  | x :: xs => by simp [deepCopyList, deepCopy_eq_id x, deepCopyList_eq_id xs]

theorem deepCopyFields_eq_id : ∀ l : List (String × Json), deepCopyFields l = l
  | [] => rfl
  | (k, v) :: xs => by simp [deepCopyFields, deepCopy_eq_id v, deepCopyFields_eq_id xs]

end

/-- Lines 123-126: default `properties` to `{}` when absent or falsy. -/
def addProps (fs : List (String × Json)) : List (String × Json) :=
  if otruthy (lookupF fs "properties") then fs else setF fs "properties" (Json.obj [])

/-- Lines 117-127: give a root object schema defaulted `required` (`[]`) and
`properties` (`{}`) fields when they are absent or falsy. -/
def reqPropsF (fs : List (String × Json)) : List (String × Json) :=
  addProps (if otruthy (lookupF fs "required") then fs else setF fs "required" (Json.arr []))

/-- Embedding of `_ensureValidToolSchema` (src/tools.ts lines 94-154), the
schema normalizer.  Returns the result value paired with the `fixA`
annotation flag (true when the result object carries cyclic `parent`
annotations).  The source makes a deep copy of its argument at line 107 and
applies every repair to the copy; the try/catch around the body can only
fire on a cyclic argument (`JSON.stringify` throws), which no JSON tree is,
and then returns the argument unchanged. -/
def ensureValidToolSchema (schema : Json) : Json × Bool :=
  -- line 100: if (!schema) return schema
  if !schema.truthy then (schema, false)
  else
    -- line 107: const validatedSchema = JSON.parse(JSON.stringify(schema))
    let validatedSchema := deepCopy schema
    match validatedSchema with
    | .obj fs =>
      if lookupF fs "type" = some (Json.str "object") then
        -- lines 117-130: default required / properties, then
        -- fixArrayProperties(validatedSchema)
        fixA none none (Json.obj (reqPropsF fs))
      else if lookupF fs "type" = some (Json.str "array") then
        -- lines 136-139: root array without items gets string items
        if otruthy (lookupF fs "items") then (Json.obj fs, false)
        else (Json.obj (setF fs "items" (Json.obj [("type", Json.str "string")])), false)
      else (Json.obj fs, false)  -- line 140: no/other type, only a warning
    | .arr es => (Json.arr es, false)  -- typeof is object but no type field
    | _ => (schema, false)  -- line 112: copy is not an object, return original

/-- Applying the normalizer to its own output.  When the first pass wrote a
`parent` annotation (flag true) the result is a cyclic in-memory structure,
`JSON.stringify` at line 107 throws on it, and the catch at lines 147-153
returns the argument unchanged; otherwise the normalizer simply runs again. -/
def secondPass (p : Json × Bool) : Json × Bool :=
  if p.2 then p else ensureValidToolSchema p.1

/-! Named views of the sections of `fixA`, for modular reasoning.
`fixA_obj` below proves they recompose `fixA` on an object. -/

def bareF (fs : List (String × Json)) : Bool :=
  decide (lookupF fs "type" = some (Json.str "array")) && !otruthy (lookupF fs "items")

def effNameF (nm : Option String) (fs : List (String × Json)) : Option Json :=
  match nm with
  | some n => some (Json.str n)
  | none => lookupF fs "name"

def fs0F (nm : Option String) (fs : List (String × Json)) : List (String × Json) :=
  match nm with
  | some n => setF fs "name" (Json.str n)
  | none => fs

def isActionsF (nm pp : Option String) (fs : List (String × Json)) : Bool :=
  decide (effNameF nm fs = some (Json.str "actions")) || decide (pp = some "actions")

def isFormatsF (nm pp : Option String) (fs : List (String × Json)) : Bool :=
  decide (effNameF nm fs = some (Json.str "formats")) || decide (pp = some "formats")

def step1F (nm pp : Option String) (fs : List (String × Json)) :
    List (String × Json) × Bool :=
  if bareF fs then
    if isActionsF nm pp fs then (setF (fs0F nm fs) "items" actionsItemsDone, true)
    else if isFormatsF nm pp fs then (setF (fs0F nm fs) "items" strItems, true)
    else (setF (fs0F nm fs) "items" strItems, true)
  else (fs0F nm fs, false)

def propsRepl (fs : List (String × Json)) : Option (Json × Bool) :=
  match _h : lookupF fs "properties" with
  | some (.obj props) =>
    some (combineFields (props.attach.map (fun p =>
      match p.1.2 with
      | .obj _ => ((p.1.1, (fixA (some p.1.1) (some p.1.1) p.1.2).1), true)
      | _ => (p.1, false))))
  | some (.arr elems) =>
    some (combineElems (elems.enum.attach.map (fun p =>
      match p.1.2 with
      | .obj _ => ((fixA (some (toString p.1.1)) (some (toString p.1.1)) p.1.2).1, true)
      | _ => (p.1.2, false))))
  | _ => none

def itemsRepl (fs : List (String × Json)) : Option (Json × Bool) :=
  match _h : lookupF fs "items" with
  | some (.obj itfs) => some ((fixA none (some "items") (Json.obj itfs)).1, true)
  | _ => none

def patternRepl (fs : List (String × Json)) : Option (Json × Bool) :=
  match _h : lookupF fs "patternProperties" with
  | some (.obj pfs) =>
    some (combineFields (pfs.attach.map (fun p =>
      match p.1.2 with
      | .obj _ =>
        ((p.1.1, (fixA none (some ("patternProperties[" ++ p.1.1 ++ "]")) p.1.2).1), true)
      | _ => (p.1, false))))
  | some (.arr elems) =>
    some (combineElems (elems.enum.attach.map (fun p =>
      match p.1.2 with
      | .obj _ =>
        ((fixA none (some ("patternProperties[" ++ toString p.1.1 ++ "]")) p.1.2).1, true)
      | _ => (p.1.2, false))))
  | _ => none

def oneOfRepl (fs : List (String × Json)) : Option (Json × Bool) :=
  match _h : lookupF fs "oneOf" with
  | some (.arr os) =>
    some (combineElems (os.enum.attach.map (fun p =>
      match p.1.2 with
      | .obj _ => ((fixA none (some ("oneOf[" ++ toString p.1.1 ++ "]")) p.1.2).1, true)
      | _ => (p.1.2, false))))
  | _ => none

def anyOfRepl (fs : List (String × Json)) : Option (Json × Bool) :=
  match _h : lookupF fs "anyOf" with
  | some (.arr os) =>
    some (combineElems (os.enum.attach.map (fun p =>
      match p.1.2 with
      | .obj _ => ((fixA none (some ("anyOf[" ++ toString p.1.1 ++ "]")) p.1.2).1, true)
      | _ => (p.1.2, false))))
  | _ => none

def allOfRepl (fs : List (String × Json)) : Option (Json × Bool) :=
  match _h : lookupF fs "allOf" with
  | some (.arr os) =>
    some (combineElems (os.enum.attach.map (fun p =>
      match p.1.2 with
      | .obj _ => ((fixA none (some ("allOf[" ++ toString p.1.1 ++ "]")) p.1.2).1, true)
      | _ => (p.1.2, false))))
  | _ => none

/-- `fixA` on an object is the composition of its named sections. -/
theorem fixA_obj (nm pp : Option String) (fs : List (String × Json)) :
    fixA nm pp (Json.obj fs) =
      finishObj (sect "allOf" (allOfRepl fs)
        (sect "anyOf" (anyOfRepl fs)
          (sect "oneOf" (oneOfRepl fs)
            (sect "patternProperties" (patternRepl fs)
              (if bareF fs then sect "properties" (propsRepl fs) (step1F nm pp fs)
               else sect "items" (itemsRepl fs)
                 (sect "properties" (propsRepl fs) (step1F nm pp fs))))))) := by
  cases nm with
  | none =>
    rw [fixA.eq_2]
    rfl
  | some n =>
    rw [fixA.eq_1]
    rfl

@[simp] theorem sect_none_eq (key : String) (cur : List (String × Json) × Bool) :
    sect key none cur = cur := rfl

theorem sect_some_eq (key : String) (v : Json) (b : Bool) (cur : List (String × Json) × Bool) :
    sect key (some (v, b)) cur = (setF cur.1 key v, cur.2 || b) := rfl

@[simp] theorem finishObj_fst (p : List (String × Json) × Bool) :
    (finishObj p).1 = Json.obj p.1 := rfl

@[simp] theorem finishObj_snd (p : List (String × Json) × Bool) :
    (finishObj p).2 = p.2 := rfl

theorem sect_snd_false {key : String} {R : Option (Json × Bool)}
    {cur : List (String × Json) × Bool} (h : (sect key R cur).2 = false) : cur.2 = false := by
  cases R with
  | none => exact h
  | some vb =>
    obtain ⟨v, b⟩ := vb
    simp [sect] at h
    exact h.1

theorem sect_snd_true {key : String} {R : Option (Json × Bool)}
    {cur : List (String × Json) × Bool} (h : cur.2 = true) : (sect key R cur).2 = true := by
  cases R with
  | none => exact h
  | some vb =>
    obtain ⟨v, b⟩ := vb
    simp [sect, h]

theorem sect_collapse {key : String} {R : Option (Json × Bool)} {fs : List (String × Json)}
    (hR : ∀ v b, R = some (v, b) → b = false → lookupF fs key = some v)
    (h : (sect key R (fs, false)).2 = false) :
    sect key R (fs, false) = (fs, false) := by
  cases R with
  | none => rfl
  | some vb =>
    obtain ⟨v, b⟩ := vb
    have hb : b = false := by simpa [sect] using h
    subst hb
    simp [sect, setF_lookup_self _ _ _ (hR v false rfl rfl)]

theorem list_any_false {α : Type} {l : List α} {f : α → Bool} (h : l.any f = false) :
    ∀ x ∈ l, f x = false := by
  intro x hx
  rcases hfx : f x with _ | _
  · rfl
  · exact absurd (List.any_eq_true.mpr ⟨x, hx, hfx⟩) (by simp [h])

theorem attach_map_pairs_id (l : List (String × Json))
    (f : {x // x ∈ l} → (String × Json) × Bool)
    (hf : ∀ p, (f p).2 = false → (f p).1 = p.1)
    (h : (l.attach.map f).any Prod.snd = false) :
    List.map (Prod.fst ∘ f) l.attach = l := by
  have hall : ∀ p ∈ l.attach, (Prod.fst ∘ f) p = p.1 := by
    intro p hp
    exact hf p (list_any_false h (f p) (List.mem_map.mpr ⟨p, hp, rfl⟩))
  rw [List.map_congr_left hall]
  exact List.attach_map_subtype_val l

theorem attach_map_enum_id (l : List Json) (f : {x // x ∈ l.enum} → Json × Bool)
    (hf : ∀ p, (f p).2 = false → (f p).1 = p.1.2)
    (h : (l.enum.attach.map f).any Prod.snd = false) :
    List.map (Prod.fst ∘ f) l.enum.attach = l := by
  have hall : ∀ p ∈ l.enum.attach, (Prod.fst ∘ f) p = p.1.2 := by
    intro p hp
    exact hf p (list_any_false h (f p) (List.mem_map.mpr ⟨p, hp, rfl⟩))
  rw [List.map_congr_left hall]
  have h2 : l.enum.attach.map (fun p => p.1.2) =
      (l.enum.attach.map Subtype.val).map Prod.snd := by
    rw [List.map_map]
    rfl
  rw [h2, List.attach_map_subtype_val, List.enum_map_snd]

theorem propsRepl_good (fs : List (String × Json)) :
    ∀ v b, propsRepl fs = some (v, b) → b = false → lookupF fs "properties" = some v := by
  intro v b hvb hb
  unfold propsRepl at hvb
  split at hvb
  next props hP =>
    simp [combineFields] at hvb
    obtain ⟨hv, hb'⟩ := hvb
    subst hv
    subst hb'
    rw [attach_map_pairs_id _ _ ?hf hb]
    · exact hP
    case hf =>
      intro p hpf
      revert hpf
      rcases p with ⟨⟨k, w⟩, hmem⟩
      cases w <;> simp
  next elems hP =>
    simp [combineElems] at hvb
    obtain ⟨hv, hb'⟩ := hvb
    subst hv
    subst hb'
    rw [attach_map_enum_id _ _ ?hf hb]
    · exact hP
    case hf =>
      intro p hpf
      revert hpf
      rcases p with ⟨⟨i, w⟩, hmem⟩
      cases w <;> simp
  next => cases hvb

theorem patternRepl_good (fs : List (String × Json)) :
    ∀ v b, patternRepl fs = some (v, b) → b = false →
      lookupF fs "patternProperties" = some v := by
  intro v b hvb hb
  unfold patternRepl at hvb
  split at hvb
  next pfs hP =>
    simp [combineFields] at hvb
    obtain ⟨hv, hb'⟩ := hvb
    subst hv
    subst hb'
    rw [attach_map_pairs_id _ _ ?hf hb]
    · exact hP
    case hf =>
      intro p hpf
      revert hpf
      rcases p with ⟨⟨k, w⟩, hmem⟩
      cases w <;> simp
  next elems hP =>
    simp [combineElems] at hvb
    obtain ⟨hv, hb'⟩ := hvb
    subst hv
    subst hb'
    rw [attach_map_enum_id _ _ ?hf hb]
    · exact hP
    case hf =>
      intro p hpf
      revert hpf
      rcases p with ⟨⟨i, w⟩, hmem⟩
      cases w <;> simp
  next => cases hvb

theorem itemsRepl_good (fs : List (String × Json)) :
    ∀ v b, itemsRepl fs = some (v, b) → b = false → lookupF fs "items" = some v := by
  intro v b hvb hb
  unfold itemsRepl at hvb
  split at hvb
  next itfs hI =>
    simp at hvb
    obtain ⟨hv, hb'⟩ := hvb
    subst hb'
    simp at hb
  next => cases hvb

theorem oneOfRepl_good (fs : List (String × Json)) :
    ∀ v b, oneOfRepl fs = some (v, b) → b = false → lookupF fs "oneOf" = some v := by
  intro v b hvb hb
  unfold oneOfRepl at hvb
  split at hvb
  next os hP =>
    simp [combineElems] at hvb
    obtain ⟨hv, hb'⟩ := hvb
    subst hv
    subst hb'
    rw [attach_map_enum_id _ _ ?hf hb]
    · exact hP
    case hf =>
      intro p hpf
      revert hpf
      rcases p with ⟨⟨i, w⟩, hmem⟩
      cases w <;> simp
  next => cases hvb

theorem anyOfRepl_good (fs : List (String × Json)) :
    ∀ v b, anyOfRepl fs = some (v, b) → b = false → lookupF fs "anyOf" = some v := by
  intro v b hvb hb
  unfold anyOfRepl at hvb
  split at hvb
  next os hP =>
    simp [combineElems] at hvb
    obtain ⟨hv, hb'⟩ := hvb
    subst hv
    subst hb'
    rw [attach_map_enum_id _ _ ?hf hb]
    · exact hP
    case hf =>
      intro p hpf
      revert hpf
      rcases p with ⟨⟨i, w⟩, hmem⟩
      cases w <;> simp
  next => cases hvb

theorem allOfRepl_good (fs : List (String × Json)) :
    ∀ v b, allOfRepl fs = some (v, b) → b = false → lookupF fs "allOf" = some v := by
  intro v b hvb hb
  unfold allOfRepl at hvb
  split at hvb
  next os hP =>
    simp [combineElems] at hvb
    obtain ⟨hv, hb'⟩ := hvb
    subst hv
    subst hb'
    rw [attach_map_enum_id _ _ ?hf hb]
    · exact hP
    case hf =>
      intro p hpf
      revert hpf
      rcases p with ⟨⟨i, w⟩, hmem⟩
      cases w <;> simp
  next => cases hvb

theorem step1F_snd_true {nm pp : Option String} {fs : List (String × Json)}
    (hb : bareF fs = true) : (step1F nm pp fs).2 = true := by
  unfold step1F
  rw [hb]
  split_ifs <;> simp_all

/-- If `fixArrayProperties` wrote no annotation (flag false) then it changed
nothing. -/
theorem fixA_none_false (pp : Option String) (j : Json)
    (h : (fixA none pp j).2 = false) : fixA none pp j = (j, false) := by
  cases j with
  | obj fs =>
    rw [fixA_obj] at h ⊢
    by_cases hb : bareF fs = true
    · exfalso
      rw [if_pos hb] at h
      have h1 : (step1F none pp fs).2 = true := step1F_snd_true hb
      have h2 := @sect_snd_true "properties" (propsRepl fs) _ h1
      have h3 := @sect_snd_true "patternProperties" (patternRepl fs) _ h2
      have h4 := @sect_snd_true "oneOf" (oneOfRepl fs) _ h3
      have h5 := @sect_snd_true "anyOf" (anyOfRepl fs) _ h4
      have h6 := @sect_snd_true "allOf" (allOfRepl fs) _ h5
      simp [h6] at h
    · have hb' : bareF fs = false := by revert hb; cases bareF fs <;> simp
      rw [if_neg hb] at h ⊢
      have hstep1 : step1F none pp fs = (fs, false) := by
        simp [step1F, hb', fs0F]
      rw [hstep1] at h ⊢
      have g7 : (sect "allOf" (allOfRepl fs)
          (sect "anyOf" (anyOfRepl fs)
            (sect "oneOf" (oneOfRepl fs)
              (sect "patternProperties" (patternRepl fs)
                (sect "items" (itemsRepl fs)
                  (sect "properties" (propsRepl fs) (fs, false))))))).2 = false := by
        simpa using h
      have g6 := sect_snd_false g7
      have g5 := sect_snd_false g6
      have g4 := sect_snd_false g5
      have g3 := sect_snd_false g4
      have g2 := sect_snd_false g3
      have c2 := sect_collapse (propsRepl_good fs) g2
      rw [c2] at g3
      have c3 := sect_collapse (itemsRepl_good fs) g3
      rw [c2, c3] at g4
      have c4 := sect_collapse (patternRepl_good fs) g4
      rw [c2, c3, c4] at g5
      have c5 := sect_collapse (oneOfRepl_good fs) g5
      rw [c2, c3, c4, c5] at g6
      have c6 := sect_collapse (anyOfRepl_good fs) g6
      rw [c2, c3, c4, c5, c6] at g7
      have c7 := sect_collapse (allOfRepl_good fs) g7
      rw [c2, c3, c4, c5, c6, c7]
      rfl
  | null => simp [fixA]
  | bool b => simp [fixA]
  | num n => simp [fixA]
  | str s => simp [fixA]
  | arr es => simp [fixA]

/-- Every array-typed object reachable along the repair traversal
(`properties` entries, object `items`, `patternProperties` branches,
`oneOf`/`anyOf`/`allOf` members) has a truthy `items`. -/
def noBare (j : Json) : Bool :=
  match j with
  | .obj fs =>
    (!(decide (lookupF fs "type" = some (Json.str "array")) && !otruthy (lookupF fs "items")))
    && (match _h : lookupF fs "properties" with
        | some (.obj props) => props.attach.all (fun p => noBare p.1.2)
        | some (.arr elems) => elems.attach.all (fun p => noBare p.1)
        | _ => true)
    && (match _h : lookupF fs "items" with
        | some (.obj itfs) => noBare (Json.obj itfs)
        | _ => true)
    && (match _h : lookupF fs "patternProperties" with
        | some (.obj pfs) => pfs.attach.all (fun p => noBare p.1.2)
        | some (.arr elems) => elems.attach.all (fun p => noBare p.1)
        | _ => true)
    && (match _h : lookupF fs "oneOf" with
        | some (.arr os) => os.attach.all (fun p => noBare p.1)
        | _ => true)
    && (match _h : lookupF fs "anyOf" with
        | some (.arr os) => os.attach.all (fun p => noBare p.1)
        | _ => true)
    && (match _h : lookupF fs "allOf" with
        | some (.arr os) => os.attach.all (fun p => noBare p.1)
        | _ => true)
  | _ => true
termination_by sizeOf j
decreasing_by
  all_goals simp_wf
  all_goals
    first
    | (have h1 := sizeOf_lookupF _ _ _ _h
       have h2 := sizeOf_mem_pair _ p.1.1 p.1.2 (by simpa using p.2)
       simp at h1 ⊢
       omega)
    | (have h1 := sizeOf_lookupF _ _ _ _h
       have h2 := sizeOf_mem_elem _ p.1 (by simpa using p.2)
       simp at h1 ⊢
       omega)
    | (have h1 := sizeOf_lookupF _ _ _ _h
       simp at h1 ⊢
       omega)

theorem addProps_lookup_ne (fs : List (String × Json)) (k : String) (h2 : k ≠ "properties") :
    lookupF (addProps fs) k = lookupF fs k := by
  unfold addProps
  split_ifs with a
  · rfl
  · exact lookupF_setF_ne fs "properties" k _ (Ne.symm h2)

theorem addProps_properties (fs : List (String × Json)) :
    otruthy (lookupF (addProps fs) "properties") = true := by
  unfold addProps
  split_ifs with a
  · exact a
  · rw [lookupF_setF_self]
    rfl

theorem addProps_eq_self (fs : List (String × Json))
    (h : otruthy (lookupF fs "properties") = true) : addProps fs = fs := by
  unfold addProps
  rw [if_pos h]

theorem reqPropsF_lookup_ne (fs : List (String × Json)) (k : String)
    (h1 : k ≠ "required") (h2 : k ≠ "properties") :
    lookupF (reqPropsF fs) k = lookupF fs k := by
  unfold reqPropsF
  rw [addProps_lookup_ne _ _ h2]
  split_ifs with a
  · rfl
  · exact lookupF_setF_ne fs "required" k _ (Ne.symm h1)

theorem reqPropsF_required (fs : List (String × Json)) :
    otruthy (lookupF (reqPropsF fs) "required") = true := by
  unfold reqPropsF
  rw [addProps_lookup_ne _ _ (by decide)]
  split_ifs with a
  · exact a
  · rw [lookupF_setF_self]
    rfl

theorem reqPropsF_properties (fs : List (String × Json)) :
    otruthy (lookupF (reqPropsF fs) "properties") = true :=
  addProps_properties _

theorem reqPropsF_eq_self (fs : List (String × Json))
    (h1 : otruthy (lookupF fs "required") = true)
    (h2 : otruthy (lookupF fs "properties") = true) : reqPropsF fs = fs := by
  unfold reqPropsF
  rw [if_pos h1, addProps_eq_self _ h2]

theorem reqPropsF_idem (fs : List (String × Json)) :
    reqPropsF (reqPropsF fs) = reqPropsF fs :=
  reqPropsF_eq_self _ (reqPropsF_required fs) (reqPropsF_properties fs)

theorem ensureValid_obj_objtype (fs : List (String × Json))
    (h : lookupF fs "type" = some (Json.str "object")) :
    ensureValidToolSchema (Json.obj fs) = fixA none none (Json.obj (reqPropsF fs)) := by
  simp [ensureValidToolSchema, Json.truthy, h, deepCopy_eq_id]

theorem ensureValid_obj_arr_bare (fs : List (String × Json))
    (h : lookupF fs "type" = some (Json.str "array"))
    (hi : otruthy (lookupF fs "items") = false) :
    ensureValidToolSchema (Json.obj fs) =
      (Json.obj (setF fs "items" (Json.obj [("type", Json.str "string")])), false) := by
  simp [ensureValidToolSchema, Json.truthy, h, hi, deepCopy_eq_id]

theorem ensureValid_secondPass_eq (s : Json) :
    secondPass (ensureValidToolSchema s) = ensureValidToolSchema s := by
  rcases hf : (ensureValidToolSchema s).2 with _ | _
  case true =>
    unfold secondPass
    rw [hf]
    simp
  case false =>
    have hif : secondPass (ensureValidToolSchema s) =
        ensureValidToolSchema (ensureValidToolSchema s).1 := by
      unfold secondPass
      rw [hf]
      simp
    rw [hif]
    cases s with
    | null =>
      have h1 : ensureValidToolSchema Json.null = (Json.null, false) := by
        simp [ensureValidToolSchema, Json.truthy]
      rw [h1]
      exact h1
    | bool b =>
      have h1 : ensureValidToolSchema (Json.bool b) = (Json.bool b, false) := by
        cases b <;> simp [ensureValidToolSchema, Json.truthy, deepCopy_eq_id]
      rw [h1]
      exact h1
    | num n =>
      have h1 : ensureValidToolSchema (Json.num n) = (Json.num n, false) := by
        unfold ensureValidToolSchema
        split <;> simp [deepCopy_eq_id]
      rw [h1]
      exact h1
    | str s0 =>
      have h1 : ensureValidToolSchema (Json.str s0) = (Json.str s0, false) := by
        unfold ensureValidToolSchema
        split <;> simp [deepCopy_eq_id]
      rw [h1]
      exact h1
    | arr es =>
      have h1 : ensureValidToolSchema (Json.arr es) = (Json.arr es, false) := by
        simp [ensureValidToolSchema, Json.truthy, deepCopy_eq_id]
      rw [h1]
      exact h1
    | obj fs =>
      rcases ht : lookupF fs "type" with _ | tv
      · have h1 : ensureValidToolSchema (Json.obj fs) = (Json.obj fs, false) := by
          simp [ensureValidToolSchema, Json.truthy, deepCopy_eq_id, ht]
        rw [h1]
        exact h1
      · by_cases hobj : tv = Json.str "object"
        · subst hobj
          have h1 := ensureValid_obj_objtype fs ht
          rw [h1] at hf ⊢
          have h2 := fixA_none_false none _ hf
          have ht2 : lookupF (reqPropsF fs) "type" = some (Json.str "object") := by
            rw [reqPropsF_lookup_ne fs "type" (by decide) (by decide), ht]
          have goal2 : ensureValidToolSchema (Json.obj (reqPropsF fs)) =
              (Json.obj (reqPropsF fs), false) := by
            rw [ensureValid_obj_objtype _ ht2, reqPropsF_idem]
            exact h2
          rw [h2]
          exact goal2
        · by_cases harr : tv = Json.str "array"
          · subst harr
            rcases hi : otruthy (lookupF fs "items") with _ | _
            · have h1 := ensureValid_obj_arr_bare fs ht hi
              rw [h1]
              have ht2 : lookupF (setF fs "items" (Json.obj [("type", Json.str "string")]))
                  "type" = some (Json.str "array") := by
                rw [lookupF_setF_ne _ _ _ _ (by decide), ht]
              have hi2 : otruthy (lookupF
                  (setF fs "items" (Json.obj [("type", Json.str "string")])) "items") = true := by
                rw [lookupF_setF_self]
                rfl
              simp [ensureValidToolSchema, Json.truthy, deepCopy_eq_id, ht2, hi2]
            · have h1 : ensureValidToolSchema (Json.obj fs) = (Json.obj fs, false) := by
                simp [ensureValidToolSchema, Json.truthy, deepCopy_eq_id, ht, hi]
              rw [h1]
              exact h1
          · have h1 : ensureValidToolSchema (Json.obj fs) = (Json.obj fs, false) := by
              simp [ensureValidToolSchema, Json.truthy, deepCopy_eq_id, ht, hobj, harr]
            rw [h1]
            exact h1

def nbFields (key : String) (fs : List (String × Json)) : Bool :=
  match _h : lookupF fs key with
  | some (.obj props) => props.attach.all (fun p => noBare p.1.2)
  | some (.arr elems) => elems.attach.all (fun p => noBare p.1)
  | _ => true

def nbItems (fs : List (String × Json)) : Bool :=
  match _h : lookupF fs "items" with
  | some (.obj itfs) => noBare (Json.obj itfs)
  | _ => true

def nbArr (key : String) (fs : List (String × Json)) : Bool :=
  match _h : lookupF fs key with
  | some (.arr os) => os.attach.all (fun p => noBare p.1)
  | _ => true

theorem noBare_obj (fs : List (String × Json)) :
    noBare (Json.obj fs) =
      ((!bareF fs) && nbFields "properties" fs && nbItems fs
        && nbFields "patternProperties" fs && nbArr "oneOf" fs && nbArr "anyOf" fs
        && nbArr "allOf" fs) := by
  rw [noBare]
  rfl

@[simp] theorem noBare_null : noBare Json.null = true := by
  rw [noBare]
  exact fun fields h => Json.noConfusion h

@[simp] theorem noBare_bool (b : Bool) : noBare (Json.bool b) = true := by
  rw [noBare]
  exact fun fields h => Json.noConfusion h

@[simp] theorem noBare_num (n : Int) : noBare (Json.num n) = true := by
  rw [noBare]
  exact fun fields h => Json.noConfusion h

@[simp] theorem noBare_str (s : String) : noBare (Json.str s) = true := by
  rw [noBare]
  exact fun fields h => Json.noConfusion h

@[simp] theorem noBare_arr (es : List Json) : noBare (Json.arr es) = true := by
  rw [noBare]
  exact fun fields h => Json.noConfusion h

theorem noBare_strItems : noBare strItems = true := by
  unfold strItems
  rw [noBare_obj]
  simp [bareF, nbFields, nbItems, nbArr, strItems, lookupF, otruthy, Json.truthy]

theorem noBare_actionsItemsDone : noBare actionsItemsDone = true := by
  unfold actionsItemsDone
  rw [noBare_obj]
  simp [bareF, nbFields, nbItems, nbArr, actionsItemsDone, lookupF, otruthy, Json.truthy]
  constructor <;> rw [noBare_obj] <;>
    simp [bareF, nbFields, nbItems, nbArr, lookupF, otruthy, Json.truthy]

theorem attach_all_iff {α : Type} (l : List α) (f : α → Bool) :
    (l.attach.all (fun p => f p.1)) = true ↔ ∀ x ∈ l, f x = true := by
  rw [List.all_eq_true]
  constructor
  · intro h x hx
    exact h ⟨x, hx⟩ (List.mem_attach l ⟨x, hx⟩)
  · intro h p _
    exact h p.1 p.2

theorem nbFields_of_obj {fs : List (String × Json)} {key : String}
    {props : List (String × Json)} (h : lookupF fs key = some (Json.obj props))
    (hall : ∀ x ∈ props, noBare x.2 = true) : nbFields key fs = true := by
  unfold nbFields
  split
  next props' heq =>
    rw [h] at heq
    injection heq with heq2
    injection heq2 with heq3
    subst heq3
    exact (attach_all_iff props (fun x => noBare x.2)).mpr hall
  next elems heq =>
    rw [h] at heq
    injection heq with heq2
    exact Json.noConfusion heq2
  next => rfl

theorem nbFields_of_arr {fs : List (String × Json)} {key : String}
    {elems : List Json} (h : lookupF fs key = some (Json.arr elems))
    (hall : ∀ x ∈ elems, noBare x = true) : nbFields key fs = true := by
  unfold nbFields
  split
  next props' heq =>
    rw [h] at heq
    injection heq with heq2
    exact Json.noConfusion heq2
  next elems' heq =>
    rw [h] at heq
    injection heq with heq2
    injection heq2 with heq3
    subst heq3
    exact (attach_all_iff elems (fun x => noBare x)).mpr hall
  next => rfl

theorem nbFields_of_not {fs : List (String × Json)} {key : String}
    (h1 : ∀ props, lookupF fs key ≠ some (Json.obj props))
    (h2 : ∀ elems, lookupF fs key ≠ some (Json.arr elems)) : nbFields key fs = true := by
  unfold nbFields
  split
  next props heq => exact absurd heq (h1 props)
  next elems heq => exact absurd heq (h2 elems)
  next => rfl

theorem nbItems_of_obj {fs : List (String × Json)} {itfs : List (String × Json)}
    (h : lookupF fs "items" = some (Json.obj itfs))
    (hn : noBare (Json.obj itfs) = true) : nbItems fs = true := by
  unfold nbItems
  split
  next itfs' heq =>
    rw [h] at heq
    injection heq with heq2
    injection heq2 with heq3
    subst heq3
    exact hn
  next => rfl

theorem nbItems_of_not {fs : List (String × Json)}
    (h : ∀ itfs, lookupF fs "items" ≠ some (Json.obj itfs)) : nbItems fs = true := by
  unfold nbItems
  split
  next itfs heq => exact absurd heq (h itfs)
  next => rfl

theorem nbArr_of_arr {fs : List (String × Json)} {key : String} {os : List Json}
    (h : lookupF fs key = some (Json.arr os))
    (hall : ∀ x ∈ os, noBare x = true) : nbArr key fs = true := by
  unfold nbArr
  split
  next os' heq =>
    rw [h] at heq
    injection heq with heq2
    injection heq2 with heq3
    subst heq3
    exact (attach_all_iff os (fun x => noBare x)).mpr hall
  next => rfl

theorem nbArr_of_not {fs : List (String × Json)} {key : String}
    (h : ∀ os, lookupF fs key ≠ some (Json.arr os)) : nbArr key fs = true := by
  unfold nbArr
  split
  next os heq => exact absurd heq (h os)
  next => rfl

theorem not_bareF_of (fs : List (String × Json))
    (h : lookupF fs "type" = some (Json.str "array") → otruthy (lookupF fs "items") = true) :
    (!bareF fs) = true := by
  unfold bareF
  by_cases ht : lookupF fs "type" = some (Json.str "array")
  · simp [ht, h ht]
  · simp [ht]

theorem sect_lookup_ne {key : String} {R : Option (Json × Bool)}
    {cur : List (String × Json) × Bool} {k : String} (h : ¬key = k) :
    lookupF (sect key R cur).1 k = lookupF cur.1 k := by
  cases R with
  | none => rfl
  | some vb =>
    obtain ⟨v, b⟩ := vb
    exact lookupF_setF_ne _ _ _ _ h

theorem fs0F_lookup_ne (nm : Option String) (fs : List (String × Json)) (k : String)
    (h : ¬("name" : String) = k) : lookupF (fs0F nm fs) k = lookupF fs k := by
  cases nm <;> simp [fs0F, lookupF_setF_ne _ _ _ _ h]

theorem step1F_lookup_ne (nm pp : Option String) (fs : List (String × Json)) (k : String)
    (h1 : ¬("items" : String) = k) (h2 : ¬("name" : String) = k) :
    lookupF (step1F nm pp fs).1 k = lookupF fs k := by
  have e1 : ∀ (l : List (String × Json)) v, lookupF (setF l "items" v) k = lookupF l k :=
    fun l v => lookupF_setF_ne l "items" k v h1
  have e2 : ∀ (l : List (String × Json)) v, lookupF (setF l "name" v) k = lookupF l k :=
    fun l v => lookupF_setF_ne l "name" k v h2
  cases nm <;> unfold step1F fs0F <;> split_ifs <;> simp [e1, e2]

theorem step1F_items_bare (nm pp : Option String) (fs : List (String × Json))
    (h : bareF fs = true) :
    lookupF (step1F nm pp fs).1 "items" =
      some (if isActionsF nm pp fs = true then actionsItemsDone else strItems) := by
  unfold step1F
  rw [h, if_pos rfl]
  split_ifs with ha hf <;> simp [lookupF_setF_self]

theorem step1F_not_bare (nm pp : Option String) (fs : List (String × Json))
    (h : bareF fs = false) : step1F nm pp fs = (fs0F nm fs, false) := by
  unfold step1F
  rw [h, if_neg (by simp)]


theorem propsRepl_of_obj (fs props : List (String × Json))
    (hP : lookupF fs "properties" = some (Json.obj props)) :
    propsRepl fs = some (combineFields (props.attach.map (fun p =>
      match p.1.2 with
      | .obj _ => ((p.1.1, (fixA (some p.1.1) (some p.1.1) p.1.2).1), true)
      | _ => (p.1, false)))) := by
  unfold propsRepl
  split
  next props' heq =>
    rw [hP] at heq
    injection heq with h2
    injection h2 with h3
    subst h3
    rfl
  next elems heq =>
    rw [hP] at heq
    injection heq with h2
    exact Json.noConfusion h2
  next hno1 hno2 => exact (hno1 props hP).elim

theorem propsRepl_of_arr (fs : List (String × Json)) (elems : List Json)
    (hP : lookupF fs "properties" = some (Json.arr elems)) :
    propsRepl fs = some (combineElems (elems.enum.attach.map (fun p =>
      match p.1.2 with
      | .obj _ => ((fixA (some (toString p.1.1)) (some (toString p.1.1)) p.1.2).1, true)
      | _ => (p.1.2, false)))) := by
  unfold propsRepl
  split
  next props' heq =>
    rw [hP] at heq
    injection heq with h2
    exact Json.noConfusion h2
  next elems' heq =>
    rw [hP] at heq
    injection heq with h2
    injection h2 with h3
    subst h3
    rfl
  next hno1 hno2 => exact (hno2 elems hP).elim

theorem propsRepl_of_not (fs : List (String × Json))
    (h1 : ∀ props, lookupF fs "properties" ≠ some (Json.obj props))
    (h2 : ∀ elems, lookupF fs "properties" ≠ some (Json.arr elems)) :
    propsRepl fs = none := by
  unfold propsRepl
  split
  next props heq => exact absurd heq (h1 props)
  next elems heq => exact absurd heq (h2 elems)
  next => rfl

theorem patternRepl_of_obj (fs pfs : List (String × Json))
    (hP : lookupF fs "patternProperties" = some (Json.obj pfs)) :
    patternRepl fs = some (combineFields (pfs.attach.map (fun p =>
      match p.1.2 with
      | .obj _ =>
        ((p.1.1, (fixA none (some ("patternProperties[" ++ p.1.1 ++ "]")) p.1.2).1), true)
      | _ => (p.1, false)))) := by
  unfold patternRepl
  split
  next props' heq =>
    rw [hP] at heq
    injection heq with h2
    injection h2 with h3
    subst h3
    rfl
  next elems heq =>
    rw [hP] at heq
    injection heq with h2
    exact Json.noConfusion h2
  next hno1 hno2 => exact (hno1 pfs hP).elim

theorem patternRepl_of_arr (fs : List (String × Json)) (elems : List Json)
    (hP : lookupF fs "patternProperties" = some (Json.arr elems)) :
    patternRepl fs = some (combineElems (elems.enum.attach.map (fun p =>
      match p.1.2 with
      | .obj _ =>
        ((fixA none (some ("patternProperties[" ++ toString p.1.1 ++ "]")) p.1.2).1, true)
      | _ => (p.1.2, false)))) := by
  unfold patternRepl
  split
  next props' heq =>
    rw [hP] at heq
    injection heq with h2
    exact Json.noConfusion h2
  next elems' heq =>
    rw [hP] at heq
    injection heq with h2
    injection h2 with h3
    subst h3
    rfl
  next hno1 hno2 => exact (hno2 elems hP).elim

theorem patternRepl_of_not (fs : List (String × Json))
    (h1 : ∀ props, lookupF fs "patternProperties" ≠ some (Json.obj props))
    (h2 : ∀ elems, lookupF fs "patternProperties" ≠ some (Json.arr elems)) :
    patternRepl fs = none := by
  unfold patternRepl
  split
  next props heq => exact absurd heq (h1 props)
  next elems heq => exact absurd heq (h2 elems)
  next => rfl

theorem itemsRepl_of_obj (fs itfs : List (String × Json))
    (hI : lookupF fs "items" = some (Json.obj itfs)) :
    itemsRepl fs = some ((fixA none (some "items") (Json.obj itfs)).1, true) := by
  unfold itemsRepl
  split
  next itfs' heq =>
    rw [hI] at heq
    injection heq with h2
    injection h2 with h3
    subst h3
    rfl
  next hno => exact (hno itfs hI).elim

theorem itemsRepl_of_not (fs : List (String × Json))
    (h : ∀ itfs, lookupF fs "items" ≠ some (Json.obj itfs)) : itemsRepl fs = none := by
  unfold itemsRepl
  split
  next itfs heq => exact absurd heq (h itfs)
  next => rfl

theorem oneOfRepl_of_arr (fs : List (String × Json)) (os : List Json)
    (hP : lookupF fs "oneOf" = some (Json.arr os)) :
    oneOfRepl fs = some (combineElems (os.enum.attach.map (fun p =>
      match p.1.2 with
      | .obj _ => ((fixA none (some ("oneOf[" ++ toString p.1.1 ++ "]")) p.1.2).1, true)
      | _ => (p.1.2, false)))) := by
  unfold oneOfRepl
  split
  next os' heq =>
    rw [hP] at heq
    injection heq with h2
    injection h2 with h3
    subst h3
    rfl
  next hno => exact (hno os hP).elim

theorem oneOfRepl_of_not (fs : List (String × Json))
    (h : ∀ os, lookupF fs "oneOf" ≠ some (Json.arr os)) : oneOfRepl fs = none := by
  unfold oneOfRepl
  split
  next os heq => exact absurd heq (h os)
  next => rfl

theorem anyOfRepl_of_arr (fs : List (String × Json)) (os : List Json)
    (hP : lookupF fs "anyOf" = some (Json.arr os)) :
    anyOfRepl fs = some (combineElems (os.enum.attach.map (fun p =>
      match p.1.2 with
      | .obj _ => ((fixA none (some ("anyOf[" ++ toString p.1.1 ++ "]")) p.1.2).1, true)
      | _ => (p.1.2, false)))) := by
  unfold anyOfRepl
  split
  next os' heq =>
    rw [hP] at heq
    injection heq with h2
    injection h2 with h3
    subst h3
    rfl
  next hno => exact (hno os hP).elim

theorem anyOfRepl_of_not (fs : List (String × Json))
    (h : ∀ os, lookupF fs "anyOf" ≠ some (Json.arr os)) : anyOfRepl fs = none := by
  unfold anyOfRepl
  split
  next os heq => exact absurd heq (h os)
  next => rfl

theorem allOfRepl_of_arr (fs : List (String × Json)) (os : List Json)
    (hP : lookupF fs "allOf" = some (Json.arr os)) :
    allOfRepl fs = some (combineElems (os.enum.attach.map (fun p =>
      match p.1.2 with
      | .obj _ => ((fixA none (some ("allOf[" ++ toString p.1.1 ++ "]")) p.1.2).1, true)
      | _ => (p.1.2, false)))) := by
  unfold allOfRepl
  split
  next os' heq =>
    rw [hP] at heq
    injection heq with h2
    injection h2 with h3
    subst h3
    rfl
  next hno => exact (hno os hP).elim

theorem allOfRepl_of_not (fs : List (String × Json))
    (h : ∀ os, lookupF fs "allOf" ≠ some (Json.arr os)) : allOfRepl fs = none := by
  unfold allOfRepl
  split
  next os heq => exact absurd heq (h os)
  next => rfl

/-- The full section chain of `fixA` on an object, with the items section
replacement abstracted (it is `none` when the array fix already wrote and
processed a fresh items value). -/
def chainF (nm pp : Option String) (fields : List (String × Json))
    (R3 : Option (Json × Bool)) : List (String × Json) × Bool :=
  sect "allOf" (allOfRepl fields) (sect "anyOf" (anyOfRepl fields)
    (sect "oneOf" (oneOfRepl fields) (sect "patternProperties" (patternRepl fields)
      (sect "items" R3 (sect "properties" (propsRepl fields)
        (step1F nm pp fields))))))

theorem fixA_obj2 (nm pp : Option String) (fields : List (String × Json)) :
    fixA nm pp (Json.obj fields) =
      finishObj (chainF nm pp fields
        (if bareF fields = true then none else itemsRepl fields)) := by
  cases hb : bareF fields <;> rw [fixA_obj] <;> simp [chainF, hb]

theorem chainF_lookup_ne (nm pp : Option String) (fields : List (String × Json))
    (R3 : Option (Json × Bool)) (k : String) (n1 : ¬("allOf" : String) = k)
    (n2 : ¬("anyOf" : String) = k) (n3 : ¬("oneOf" : String) = k)
    (n4 : ¬("patternProperties" : String) = k) (n5 : ¬("items" : String) = k)
    (n6 : ¬("properties" : String) = k) (n7 : ¬("name" : String) = k) :
    lookupF (chainF nm pp fields R3).1 k = lookupF fields k := by
  unfold chainF
  rw [sect_lookup_ne n1, sect_lookup_ne n2, sect_lookup_ne n3, sect_lookup_ne n4,
    sect_lookup_ne n5, sect_lookup_ne n6, step1F_lookup_ne nm pp fields k n5 n7]

theorem fixA_obj_truthy (nm pp : Option String) (gs : List (String × Json)) :
    (fixA nm pp (Json.obj gs)).1.truthy = true := by
  rw [fixA_obj]
  simp [Json.truthy]

theorem chainF_lookup_props_obj (nm pp : Option String) (fields : List (String × Json))
    (R3 : Option (Json × Bool)) (props : List (String × Json))
    (hP : lookupF fields "properties" = some (Json.obj props)) :
    lookupF (chainF nm pp fields R3).1 "properties" =
      some (Json.obj (List.map Prod.fst (props.attach.map (fun p =>
        match p.1.2 with
        | .obj _ => ((p.1.1, (fixA (some p.1.1) (some p.1.1) p.1.2).1), true)
        | _ => (p.1, false))))) := by
  unfold chainF
  rw [sect_lookup_ne (by decide), sect_lookup_ne (by decide), sect_lookup_ne (by decide),
    sect_lookup_ne (by decide), sect_lookup_ne (by decide), propsRepl_of_obj fields props hP]
  simp only [combineFields, sect_some_eq]
  exact lookupF_setF_self _ _ _

theorem chainF_lookup_props_arr (nm pp : Option String) (fields : List (String × Json))
    (R3 : Option (Json × Bool)) (elems : List Json)
    (hP : lookupF fields "properties" = some (Json.arr elems)) :
    lookupF (chainF nm pp fields R3).1 "properties" =
      some (Json.arr (List.map Prod.fst (elems.enum.attach.map (fun p =>
        match p.1.2 with
        | .obj _ => ((fixA (some (toString p.1.1)) (some (toString p.1.1)) p.1.2).1, true)
        | _ => (p.1.2, false))))) := by
  unfold chainF
  rw [sect_lookup_ne (by decide), sect_lookup_ne (by decide), sect_lookup_ne (by decide),
    sect_lookup_ne (by decide), sect_lookup_ne (by decide), propsRepl_of_arr fields elems hP]
  simp only [combineElems, sect_some_eq]
  exact lookupF_setF_self _ _ _

theorem chainF_lookup_props_not (nm pp : Option String) (fields : List (String × Json))
    (R3 : Option (Json × Bool))
    (h1 : ∀ props, lookupF fields "properties" ≠ some (Json.obj props))
    (h2 : ∀ elems, lookupF fields "properties" ≠ some (Json.arr elems)) :
    lookupF (chainF nm pp fields R3).1 "properties" = lookupF fields "properties" := by
  unfold chainF
  rw [sect_lookup_ne (by decide), sect_lookup_ne (by decide), sect_lookup_ne (by decide),
    sect_lookup_ne (by decide), sect_lookup_ne (by decide), propsRepl_of_not fields h1 h2,
    sect_none_eq, step1F_lookup_ne nm pp fields _ (by decide) (by decide)]

theorem chainF_lookup_pattern_obj (nm pp : Option String) (fields : List (String × Json))
    (R3 : Option (Json × Bool)) (pfs : List (String × Json))
    (hP : lookupF fields "patternProperties" = some (Json.obj pfs)) :
    lookupF (chainF nm pp fields R3).1 "patternProperties" =
      some (Json.obj (List.map Prod.fst (pfs.attach.map (fun p =>
        match p.1.2 with
        | .obj _ =>
          ((p.1.1, (fixA none (some ("patternProperties[" ++ p.1.1 ++ "]")) p.1.2).1), true)
        | _ => (p.1, false))))) := by
  unfold chainF
  rw [sect_lookup_ne (by decide), sect_lookup_ne (by decide), sect_lookup_ne (by decide),
    patternRepl_of_obj fields pfs hP]
  simp only [combineFields, sect_some_eq]
  exact lookupF_setF_self _ _ _

theorem chainF_lookup_pattern_arr (nm pp : Option String) (fields : List (String × Json))
    (R3 : Option (Json × Bool)) (elems : List Json)
    (hP : lookupF fields "patternProperties" = some (Json.arr elems)) :
    lookupF (chainF nm pp fields R3).1 "patternProperties" =
      some (Json.arr (List.map Prod.fst (elems.enum.attach.map (fun p =>
        match p.1.2 with
        | .obj _ =>
          ((fixA none (some ("patternProperties[" ++ toString p.1.1 ++ "]")) p.1.2).1, true)
        | _ => (p.1.2, false))))) := by
  unfold chainF
  rw [sect_lookup_ne (by decide), sect_lookup_ne (by decide), sect_lookup_ne (by decide),
    patternRepl_of_arr fields elems hP]
  simp only [combineElems, sect_some_eq]
  exact lookupF_setF_self _ _ _

theorem chainF_lookup_pattern_not (nm pp : Option String) (fields : List (String × Json))
    (R3 : Option (Json × Bool))
    (h1 : ∀ props, lookupF fields "patternProperties" ≠ some (Json.obj props))
    (h2 : ∀ elems, lookupF fields "patternProperties" ≠ some (Json.arr elems)) :
    lookupF (chainF nm pp fields R3).1 "patternProperties" =
      lookupF fields "patternProperties" := by
  unfold chainF
  rw [sect_lookup_ne (by decide), sect_lookup_ne (by decide), sect_lookup_ne (by decide),
    patternRepl_of_not fields h1 h2, sect_none_eq, sect_lookup_ne (by decide),
    sect_lookup_ne (by decide), step1F_lookup_ne nm pp fields _ (by decide) (by decide)]

theorem chainF_lookup_oneOf_arr (nm pp : Option String) (fields : List (String × Json))
    (R3 : Option (Json × Bool)) (os : List Json)
    (hP : lookupF fields "oneOf" = some (Json.arr os)) :
    lookupF (chainF nm pp fields R3).1 "oneOf" =
      some (Json.arr (List.map Prod.fst (os.enum.attach.map (fun p =>
        match p.1.2 with
        | .obj _ => ((fixA none (some ("oneOf[" ++ toString p.1.1 ++ "]")) p.1.2).1, true)
        | _ => (p.1.2, false))))) := by
  unfold chainF
  rw [sect_lookup_ne (by decide), sect_lookup_ne (by decide), oneOfRepl_of_arr fields os hP]
  simp only [combineElems, sect_some_eq]
  exact lookupF_setF_self _ _ _

theorem chainF_lookup_oneOf_not (nm pp : Option String) (fields : List (String × Json))
    (R3 : Option (Json × Bool))
    (h : ∀ os, lookupF fields "oneOf" ≠ some (Json.arr os)) :
    lookupF (chainF nm pp fields R3).1 "oneOf" = lookupF fields "oneOf" := by
  unfold chainF
  rw [sect_lookup_ne (by decide), sect_lookup_ne (by decide), oneOfRepl_of_not fields h,
    sect_none_eq, sect_lookup_ne (by decide), sect_lookup_ne (by decide),
    sect_lookup_ne (by decide), step1F_lookup_ne nm pp fields _ (by decide) (by decide)]

theorem chainF_lookup_anyOf_arr (nm pp : Option String) (fields : List (String × Json))
    (R3 : Option (Json × Bool)) (os : List Json)
    (hP : lookupF fields "anyOf" = some (Json.arr os)) :
    lookupF (chainF nm pp fields R3).1 "anyOf" =
      some (Json.arr (List.map Prod.fst (os.enum.attach.map (fun p =>
        match p.1.2 with
        | .obj _ => ((fixA none (some ("anyOf[" ++ toString p.1.1 ++ "]")) p.1.2).1, true)
        | _ => (p.1.2, false))))) := by
  unfold chainF
  rw [sect_lookup_ne (by decide), anyOfRepl_of_arr fields os hP]
  simp only [combineElems, sect_some_eq]
  exact lookupF_setF_self _ _ _

theorem chainF_lookup_anyOf_not (nm pp : Option String) (fields : List (String × Json))
    (R3 : Option (Json × Bool))
    (h : ∀ os, lookupF fields "anyOf" ≠ some (Json.arr os)) :
    lookupF (chainF nm pp fields R3).1 "anyOf" = lookupF fields "anyOf" := by
  unfold chainF
  rw [sect_lookup_ne (by decide), anyOfRepl_of_not fields h, sect_none_eq,
    sect_lookup_ne (by decide), sect_lookup_ne (by decide), sect_lookup_ne (by decide),
    sect_lookup_ne (by decide), step1F_lookup_ne nm pp fields _ (by decide) (by decide)]

theorem chainF_lookup_allOf_arr (nm pp : Option String) (fields : List (String × Json))
    (R3 : Option (Json × Bool)) (os : List Json)
    (hP : lookupF fields "allOf" = some (Json.arr os)) :
    lookupF (chainF nm pp fields R3).1 "allOf" =
      some (Json.arr (List.map Prod.fst (os.enum.attach.map (fun p =>
        match p.1.2 with
        | .obj _ => ((fixA none (some ("allOf[" ++ toString p.1.1 ++ "]")) p.1.2).1, true)
        | _ => (p.1.2, false))))) := by
  unfold chainF
  rw [allOfRepl_of_arr fields os hP]
  simp only [combineElems, sect_some_eq]
  exact lookupF_setF_self _ _ _

theorem chainF_lookup_allOf_not (nm pp : Option String) (fields : List (String × Json))
    (R3 : Option (Json × Bool))
    (h : ∀ os, lookupF fields "allOf" ≠ some (Json.arr os)) :
    lookupF (chainF nm pp fields R3).1 "allOf" = lookupF fields "allOf" := by
  unfold chainF
  rw [allOfRepl_of_not fields h, sect_none_eq, sect_lookup_ne (by decide),
    sect_lookup_ne (by decide), sect_lookup_ne (by decide), sect_lookup_ne (by decide),
    sect_lookup_ne (by decide), step1F_lookup_ne nm pp fields _ (by decide) (by decide)]

theorem chainF_lookup_items_R3some (nm pp : Option String) (fields : List (String × Json))
    (v : Json) (b : Bool) :
    lookupF (chainF nm pp fields (some (v, b))).1 "items" = some v := by
  unfold chainF
  rw [sect_lookup_ne (by decide), sect_lookup_ne (by decide), sect_lookup_ne (by decide),
    sect_lookup_ne (by decide), sect_some_eq]
  exact lookupF_setF_self _ _ _

theorem chainF_lookup_items_R3none_bare (nm pp : Option String)
    (fields : List (String × Json)) (hb : bareF fields = true) :
    lookupF (chainF nm pp fields none).1 "items" =
      some (if isActionsF nm pp fields = true then actionsItemsDone else strItems) := by
  unfold chainF
  rw [sect_lookup_ne (by decide), sect_lookup_ne (by decide), sect_lookup_ne (by decide),
    sect_lookup_ne (by decide), sect_none_eq, sect_lookup_ne (by decide),
    step1F_items_bare nm pp fields hb]

theorem chainF_lookup_items_R3none_notbare (nm pp : Option String)
    (fields : List (String × Json)) (hb : bareF fields = false) :
    lookupF (chainF nm pp fields none).1 "items" = lookupF fields "items" := by
  unfold chainF
  rw [sect_lookup_ne (by decide), sect_lookup_ne (by decide), sect_lookup_ne (by decide),
    sect_lookup_ne (by decide), sect_none_eq, sect_lookup_ne (by decide),
    step1F_not_bare nm pp fields hb]
  exact fs0F_lookup_ne nm fields "items" (by decide)

theorem chain_comp_props (nm pp : Option String) (fields : List (String × Json))
    (R3 : Option (Json × Bool))
    (ihPO : ∀ props, lookupF fields "properties" = some (Json.obj props) →
      ∀ p : {x // x ∈ props}, noBare (fixA (some p.1.1) (some p.1.1) p.1.2).1 = true)
    (ihPA : ∀ elems, lookupF fields "properties" = some (Json.arr elems) →
      ∀ p : {x // x ∈ elems.enum},
        noBare (fixA (some (toString p.1.1)) (some (toString p.1.1)) p.1.2).1 = true) :
    nbFields "properties" (chainF nm pp fields R3).1 = true := by
  have other : ∀ v : Json, lookupF fields "properties" = some v →
      (∀ gs, v ≠ Json.obj gs) → (∀ es, v ≠ Json.arr es) →
      nbFields "properties" (chainF nm pp fields R3).1 = true := by
    intro v hP hv1 hv2
    have hlk := chainF_lookup_props_not nm pp fields R3
      (by intro pr h; rw [hP] at h; injection h with h2; exact absurd h2 (hv1 pr))
      (by intro el h; rw [hP] at h; injection h with h2; exact absurd h2 (hv2 el))
    rw [hP] at hlk
    exact nbFields_of_not
      (by intro pr h; rw [hlk] at h; injection h with h2; exact absurd h2 (hv1 pr))
      (by intro el h; rw [hlk] at h; injection h with h2; exact absurd h2 (hv2 el))
  rcases hP : lookupF fields "properties" with _ | pv
  · have hlk := chainF_lookup_props_not nm pp fields R3
      (by intro pr h; rw [hP] at h; cases h) (by intro el h; rw [hP] at h; cases h)
    rw [hP] at hlk
    exact nbFields_of_not (by intro pr h; rw [hlk] at h; cases h)
      (by intro el h; rw [hlk] at h; cases h)
  · cases pv with
    | obj props =>
      have hlk := chainF_lookup_props_obj nm pp fields R3 props hP
      apply nbFields_of_obj hlk
      intro x hx
      obtain ⟨r, hr, hrx⟩ := List.mem_map.mp hx
      obtain ⟨p, hpmem, hpr⟩ := List.mem_map.mp hr
      subst hpr
      subst hrx
      rcases p with ⟨⟨k, w⟩, hmem⟩
      cases w with
      | obj o => simpa using ihPO props hP ⟨(k, Json.obj o), hmem⟩
      | null => simp
      | bool b => simp
      | num n => simp
      | str s0 => simp
      | arr es => simp
    | arr elems =>
      have hlk := chainF_lookup_props_arr nm pp fields R3 elems hP
      apply nbFields_of_arr hlk
      intro x hx
      obtain ⟨r, hr, hrx⟩ := List.mem_map.mp hx
      obtain ⟨p, hpmem, hpr⟩ := List.mem_map.mp hr
      subst hpr
      subst hrx
      rcases p with ⟨⟨i, w⟩, hmem⟩
      cases w with
      | obj o => simpa using ihPA elems hP ⟨(i, Json.obj o), hmem⟩
      | null => simp
      | bool b => simp
      | num n => simp
      | str s0 => simp
      | arr es => simp
    | null =>
      exact other Json.null hP (fun gs h => Json.noConfusion h) (fun es h => Json.noConfusion h)
    | bool b =>
      exact other (Json.bool b) hP (fun gs h => Json.noConfusion h) (fun es h => Json.noConfusion h)
    | num n =>
      exact other (Json.num n) hP (fun gs h => Json.noConfusion h) (fun es h => Json.noConfusion h)
    | str s0 =>
      exact other (Json.str s0) hP (fun gs h => Json.noConfusion h) (fun es h => Json.noConfusion h)

theorem chain_comp_pattern (nm pp : Option String) (fields : List (String × Json))
    (R3 : Option (Json × Bool))
    (ihQO : ∀ pfs, lookupF fields "patternProperties" = some (Json.obj pfs) →
      ∀ p : {x // x ∈ pfs},
        noBare (fixA none (some ("patternProperties[" ++ p.1.1 ++ "]")) p.1.2).1 = true)
    (ihQA : ∀ elems, lookupF fields "patternProperties" = some (Json.arr elems) →
      ∀ p : {x // x ∈ elems.enum},
        noBare
          (fixA none (some ("patternProperties[" ++ toString p.1.1 ++ "]")) p.1.2).1 = true) :
    nbFields "patternProperties" (chainF nm pp fields R3).1 = true := by
  have other : ∀ v : Json, lookupF fields "patternProperties" = some v →
      (∀ gs, v ≠ Json.obj gs) → (∀ es, v ≠ Json.arr es) →
      nbFields "patternProperties" (chainF nm pp fields R3).1 = true := by
    intro v hP hv1 hv2
    have hlk := chainF_lookup_pattern_not nm pp fields R3
      (by intro pr h; rw [hP] at h; injection h with h2; exact absurd h2 (hv1 pr))
      (by intro el h; rw [hP] at h; injection h with h2; exact absurd h2 (hv2 el))
    rw [hP] at hlk
    exact nbFields_of_not
      (by intro pr h; rw [hlk] at h; injection h with h2; exact absurd h2 (hv1 pr))
      (by intro el h; rw [hlk] at h; injection h with h2; exact absurd h2 (hv2 el))
  rcases hP : lookupF fields "patternProperties" with _ | pv
  · have hlk := chainF_lookup_pattern_not nm pp fields R3
      (by intro pr h; rw [hP] at h; cases h) (by intro el h; rw [hP] at h; cases h)
    rw [hP] at hlk
    exact nbFields_of_not (by intro pr h; rw [hlk] at h; cases h)
      (by intro el h; rw [hlk] at h; cases h)
  · cases pv with
    | obj pfs =>
      have hlk := chainF_lookup_pattern_obj nm pp fields R3 pfs hP
      apply nbFields_of_obj hlk
      intro x hx
      obtain ⟨r, hr, hrx⟩ := List.mem_map.mp hx
      obtain ⟨p, hpmem, hpr⟩ := List.mem_map.mp hr
      subst hpr
      subst hrx
      rcases p with ⟨⟨k, w⟩, hmem⟩
      cases w with
      | obj o => simpa using ihQO pfs hP ⟨(k, Json.obj o), hmem⟩
      | null => simp
      | bool b => simp
      | num n => simp
      | str s0 => simp
      | arr es => simp
    | arr elems =>
      have hlk := chainF_lookup_pattern_arr nm pp fields R3 elems hP
      apply nbFields_of_arr hlk
      intro x hx
      obtain ⟨r, hr, hrx⟩ := List.mem_map.mp hx
      obtain ⟨p, hpmem, hpr⟩ := List.mem_map.mp hr
      subst hpr
      subst hrx
      rcases p with ⟨⟨i, w⟩, hmem⟩
      cases w with
      | obj o => simpa using ihQA elems hP ⟨(i, Json.obj o), hmem⟩
      | null => simp
      | bool b => simp
      | num n => simp
      | str s0 => simp
      | arr es => simp
    | null =>
      exact other Json.null hP (fun gs h => Json.noConfusion h) (fun es h => Json.noConfusion h)
    | bool b =>
      exact other (Json.bool b) hP (fun gs h => Json.noConfusion h) (fun es h => Json.noConfusion h)
    | num n =>
      exact other (Json.num n) hP (fun gs h => Json.noConfusion h) (fun es h => Json.noConfusion h)
    | str s0 =>
      exact other (Json.str s0) hP (fun gs h => Json.noConfusion h) (fun es h => Json.noConfusion h)

theorem chain_comp_oneOf (nm pp : Option String) (fields : List (String × Json))
    (R3 : Option (Json × Bool))
    (ih : ∀ os, lookupF fields "oneOf" = some (Json.arr os) →
      ∀ p : {x // x ∈ os.enum},
        noBare (fixA none (some ("oneOf[" ++ toString p.1.1 ++ "]")) p.1.2).1 = true) :
    nbArr "oneOf" (chainF nm pp fields R3).1 = true := by
  have other : ∀ v : Json, lookupF fields "oneOf" = some v →
      (∀ es, v ≠ Json.arr es) → nbArr "oneOf" (chainF nm pp fields R3).1 = true := by
    intro v hP hv
    have hlk := chainF_lookup_oneOf_not nm pp fields R3
      (by intro os h; rw [hP] at h; injection h with h2; exact absurd h2 (hv os))
    rw [hP] at hlk
    exact nbArr_of_not
      (by intro os h; rw [hlk] at h; injection h with h2; exact absurd h2 (hv os))
  rcases hP : lookupF fields "oneOf" with _ | pv
  · have hlk := chainF_lookup_oneOf_not nm pp fields R3 (by intro os h; rw [hP] at h; cases h)
    rw [hP] at hlk
    exact nbArr_of_not (by intro os h; rw [hlk] at h; cases h)
  · cases pv with
    | arr os =>
      have hlk := chainF_lookup_oneOf_arr nm pp fields R3 os hP
      apply nbArr_of_arr hlk
      intro x hx
      obtain ⟨r, hr, hrx⟩ := List.mem_map.mp hx
      obtain ⟨p, hpmem, hpr⟩ := List.mem_map.mp hr
      subst hpr
      subst hrx
      rcases p with ⟨⟨i, w⟩, hmem⟩
      cases w with
      | obj o => simpa using ih os hP ⟨(i, Json.obj o), hmem⟩
      | null => simp
      | bool b => simp
      | num n => simp
      | str s0 => simp
      | arr es => simp
    | null =>
      exact other Json.null hP (fun es h => Json.noConfusion h)
    | bool b =>
      exact other (Json.bool b) hP (fun es h => Json.noConfusion h)
    | num n =>
      exact other (Json.num n) hP (fun es h => Json.noConfusion h)
    | str s0 =>
      exact other (Json.str s0) hP (fun es h => Json.noConfusion h)
    | obj gs =>
      exact other (Json.obj gs) hP (fun es h => Json.noConfusion h)

theorem chain_comp_anyOf (nm pp : Option String) (fields : List (String × Json))
    (R3 : Option (Json × Bool))
    (ih : ∀ os, lookupF fields "anyOf" = some (Json.arr os) →
      ∀ p : {x // x ∈ os.enum},
        noBare (fixA none (some ("anyOf[" ++ toString p.1.1 ++ "]")) p.1.2).1 = true) :
    nbArr "anyOf" (chainF nm pp fields R3).1 = true := by
  have other : ∀ v : Json, lookupF fields "anyOf" = some v →
      (∀ es, v ≠ Json.arr es) → nbArr "anyOf" (chainF nm pp fields R3).1 = true := by
    intro v hP hv
    have hlk := chainF_lookup_anyOf_not nm pp fields R3
      (by intro os h; rw [hP] at h; injection h with h2; exact absurd h2 (hv os))
    rw [hP] at hlk
    exact nbArr_of_not
      (by intro os h; rw [hlk] at h; injection h with h2; exact absurd h2 (hv os))
  rcases hP : lookupF fields "anyOf" with _ | pv
  · have hlk := chainF_lookup_anyOf_not nm pp fields R3 (by intro os h; rw [hP] at h; cases h)
    rw [hP] at hlk
    exact nbArr_of_not (by intro os h; rw [hlk] at h; cases h)
  · cases pv with
    | arr os =>
      have hlk := chainF_lookup_anyOf_arr nm pp fields R3 os hP
      apply nbArr_of_arr hlk
      intro x hx
      obtain ⟨r, hr, hrx⟩ := List.mem_map.mp hx
      obtain ⟨p, hpmem, hpr⟩ := List.mem_map.mp hr
      subst hpr
      subst hrx
      rcases p with ⟨⟨i, w⟩, hmem⟩
      cases w with
      | obj o => simpa using ih os hP ⟨(i, Json.obj o), hmem⟩
      | null => simp
      | bool b => simp
      | num n => simp
      | str s0 => simp
      | arr es => simp
    | null =>
      exact other Json.null hP (fun es h => Json.noConfusion h)
    | bool b =>
      exact other (Json.bool b) hP (fun es h => Json.noConfusion h)
    | num n =>
      exact other (Json.num n) hP (fun es h => Json.noConfusion h)
    | str s0 =>
      exact other (Json.str s0) hP (fun es h => Json.noConfusion h)
    | obj gs =>
      exact other (Json.obj gs) hP (fun es h => Json.noConfusion h)

theorem chain_comp_allOf (nm pp : Option String) (fields : List (String × Json))
    (R3 : Option (Json × Bool))
    (ih : ∀ os, lookupF fields "allOf" = some (Json.arr os) →
      ∀ p : {x // x ∈ os.enum},
        noBare (fixA none (some ("allOf[" ++ toString p.1.1 ++ "]")) p.1.2).1 = true) :
    nbArr "allOf" (chainF nm pp fields R3).1 = true := by
  have other : ∀ v : Json, lookupF fields "allOf" = some v →
      (∀ es, v ≠ Json.arr es) → nbArr "allOf" (chainF nm pp fields R3).1 = true := by
    intro v hP hv
    have hlk := chainF_lookup_allOf_not nm pp fields R3
      (by intro os h; rw [hP] at h; injection h with h2; exact absurd h2 (hv os))
    rw [hP] at hlk
    exact nbArr_of_not
      (by intro os h; rw [hlk] at h; injection h with h2; exact absurd h2 (hv os))
  rcases hP : lookupF fields "allOf" with _ | pv
  · have hlk := chainF_lookup_allOf_not nm pp fields R3 (by intro os h; rw [hP] at h; cases h)
    rw [hP] at hlk
    exact nbArr_of_not (by intro os h; rw [hlk] at h; cases h)
  · cases pv with
    | arr os =>
      have hlk := chainF_lookup_allOf_arr nm pp fields R3 os hP
      apply nbArr_of_arr hlk
      intro x hx
      obtain ⟨r, hr, hrx⟩ := List.mem_map.mp hx
      obtain ⟨p, hpmem, hpr⟩ := List.mem_map.mp hr
      subst hpr
      subst hrx
      rcases p with ⟨⟨i, w⟩, hmem⟩
      cases w with
      | obj o => simpa using ih os hP ⟨(i, Json.obj o), hmem⟩
      | null => simp
      | bool b => simp
      | num n => simp
      | str s0 => simp
      | arr es => simp
    | null =>
      exact other Json.null hP (fun es h => Json.noConfusion h)
    | bool b =>
      exact other (Json.bool b) hP (fun es h => Json.noConfusion h)
    | num n =>
      exact other (Json.num n) hP (fun es h => Json.noConfusion h)
    | str s0 =>
      exact other (Json.str s0) hP (fun es h => Json.noConfusion h)
    | obj gs =>
      exact other (Json.obj gs) hP (fun es h => Json.noConfusion h)

theorem itemsRepl_none_of_shape (fields : List (String × Json)) (v : Json)
    (hI : lookupF fields "items" = some v) (hv : ∀ gs, v ≠ Json.obj gs) :
    itemsRepl fields = none :=
  itemsRepl_of_not fields (fun it h => by
    rw [hI] at h
    injection h with h2
    exact absurd h2 (hv it))

/-- Every result of `fixArrayProperties` contains no array-typed object
lacking `items` along the repair traversal. -/
theorem noBare_fixA (nm pp : Option String) (j : Json) : noBare (fixA nm pp j).1 = true := by
  induction nm, pp, j using fixA.induct with
  | case1 nm pp fields ihPO ihPA ihIT ihQO ihQA ihONE ihANY ihALL =>
    rw [fixA_obj2]
    simp only [finishObj_fst]
    rw [noBare_obj]
    simp only [Bool.and_eq_true]
    refine ⟨⟨⟨⟨⟨⟨?_, ?_⟩, ?_⟩, ?_⟩, ?_⟩, ?_⟩, ?_⟩
    · -- the repaired object itself is not a bare array
      apply not_bareF_of
      have hT := chainF_lookup_ne nm pp fields
        (if bareF fields = true then none else itemsRepl fields) "type"
        (by decide) (by decide) (by decide) (by decide) (by decide) (by decide) (by decide)
      intro hty
      rw [hT] at hty
      rcases hbb : bareF fields with _ | _
      · rw [if_neg (by simp [hbb])]
        have hit : otruthy (lookupF fields "items") = true := by
          unfold bareF at hbb
          rw [hty] at hbb
          simpa using hbb
        rcases hI : lookupF fields "items" with _ | iv
        · rw [hI] at hit
          cases hit
        · cases iv with
          | obj itfs =>
            rw [itemsRepl_of_obj fields itfs hI, chainF_lookup_items_R3some]
            simp [otruthy, fixA_obj_truthy]
          | null =>
            rw [itemsRepl_none_of_shape fields _ hI (fun gs h => Json.noConfusion h),
              chainF_lookup_items_R3none_notbare nm pp fields hbb, hI]
            rw [hI] at hit
            exact hit
          | bool b =>
            rw [itemsRepl_none_of_shape fields _ hI (fun gs h => Json.noConfusion h),
              chainF_lookup_items_R3none_notbare nm pp fields hbb, hI]
            rw [hI] at hit
            exact hit
          | num n =>
            rw [itemsRepl_none_of_shape fields _ hI (fun gs h => Json.noConfusion h),
              chainF_lookup_items_R3none_notbare nm pp fields hbb, hI]
            rw [hI] at hit
            exact hit
          | str s0 =>
            rw [itemsRepl_none_of_shape fields _ hI (fun gs h => Json.noConfusion h),
              chainF_lookup_items_R3none_notbare nm pp fields hbb, hI]
            rw [hI] at hit
            exact hit
          | arr es =>
            rw [itemsRepl_none_of_shape fields _ hI (fun gs h => Json.noConfusion h),
              chainF_lookup_items_R3none_notbare nm pp fields hbb, hI]
            rw [hI] at hit
            exact hit
      · rw [if_pos (by simp [hbb]), chainF_lookup_items_R3none_bare nm pp fields hbb]
        rcases hA : isActionsF nm pp fields with _ | _ <;>
          simp [hA, otruthy, Json.truthy, actionsItemsDone, strItems]
    · exact chain_comp_props nm pp fields _ ihPO ihPA
    · -- the items subtree is repaired
      rcases hbb : bareF fields with _ | _
      · rw [if_neg (by simp [hbb])]
        rcases hI : lookupF fields "items" with _ | iv
        · have hr3 := itemsRepl_of_not fields (by intro it h; rw [hI] at h; cases h)
          rw [hr3]
          have hlk := chainF_lookup_items_R3none_notbare nm pp fields hbb
          rw [hI] at hlk
          exact nbItems_of_not (by intro it h; rw [hlk] at h; cases h)
        · cases iv with
          | obj itfs =>
            rw [itemsRepl_of_obj fields itfs hI]
            obtain ⟨gs, hgs⟩ : ∃ gs,
                (fixA none (some "items") (Json.obj itfs)).1 = Json.obj gs :=
              ⟨_, by rw [fixA_obj2]; exact finishObj_fst _⟩
            rw [hgs]
            have hlk := chainF_lookup_items_R3some nm pp fields (Json.obj gs) true
            exact nbItems_of_obj hlk (hgs ▸ ihIT itfs hI)
          | null =>
            rw [itemsRepl_none_of_shape fields _ hI (fun gs h => Json.noConfusion h)]
            have hlk := chainF_lookup_items_R3none_notbare nm pp fields hbb
            rw [hI] at hlk
            exact nbItems_of_not
              (by intro it h; rw [hlk] at h; injection h with h2; exact Json.noConfusion h2)
          | bool b =>
            rw [itemsRepl_none_of_shape fields _ hI (fun gs h => Json.noConfusion h)]
            have hlk := chainF_lookup_items_R3none_notbare nm pp fields hbb
            rw [hI] at hlk
            exact nbItems_of_not
              (by intro it h; rw [hlk] at h; injection h with h2; exact Json.noConfusion h2)
          | num n =>
            rw [itemsRepl_none_of_shape fields _ hI (fun gs h => Json.noConfusion h)]
            have hlk := chainF_lookup_items_R3none_notbare nm pp fields hbb
            rw [hI] at hlk
            exact nbItems_of_not
              (by intro it h; rw [hlk] at h; injection h with h2; exact Json.noConfusion h2)
          | str s0 =>
            rw [itemsRepl_none_of_shape fields _ hI (fun gs h => Json.noConfusion h)]
            have hlk := chainF_lookup_items_R3none_notbare nm pp fields hbb
            rw [hI] at hlk
            exact nbItems_of_not
              (by intro it h; rw [hlk] at h; injection h with h2; exact Json.noConfusion h2)
          | arr es =>
            rw [itemsRepl_none_of_shape fields _ hI (fun gs h => Json.noConfusion h)]
            have hlk := chainF_lookup_items_R3none_notbare nm pp fields hbb
            rw [hI] at hlk
            exact nbItems_of_not
              (by intro it h; rw [hlk] at h; injection h with h2; exact Json.noConfusion h2)
      · rw [if_pos (by simp [hbb])]
        have hlk := chainF_lookup_items_R3none_bare nm pp fields hbb
        rcases hA : isActionsF nm pp fields with _ | _ <;> rw [hA] at hlk <;>
          simp only [Bool.false_eq_true, if_false, if_true] at hlk
        · exact nbItems_of_obj hlk noBare_strItems
        · exact nbItems_of_obj hlk noBare_actionsItemsDone
    · exact chain_comp_pattern nm pp fields _ ihQO ihQA
    · exact chain_comp_oneOf nm pp fields _ ihONE
    · exact chain_comp_anyOf nm pp fields _ ihANY
    · exact chain_comp_allOf nm pp fields _ ihALL
  | case2 nm pp j hne =>
    cases j with
    | obj fs => exact absurd rfl (hne fs)
    | null => simp [fixA]
    | bool b => simp [fixA]
    | num n => simp [fixA]
    | str s0 => simp [fixA]
    | arr es => simp [fixA]

/-! ## The call-result converter (src/tools.ts lines 46-86)

`_convertCallToolResult` receives `{isError, content}` (built at lines
545-548) and either throws a `ToolException` (modelled as `Except.error`
carrying the message) or returns a value. -/

mutual

/-- JavaScript `String(·)` coercion of a JSON value (an array joins its
elements with commas, `null` elements becoming empty strings; an object
prints as `[object Object]`). -/
def jsToString : Json → String
  | .null => "null"
  | .bool true => "true"
  | .bool false => "false"
  | .num n => toString n
  | .str s => s
  | .arr es => String.intercalate "," (jsToStringList es)
  | .obj _ => "[object Object]"

def jsToStringList : List Json → List String
  | [] => []
  | .null :: xs => "" :: jsToStringList xs
  | x :: xs => jsToString x :: jsToStringList xs

end

/-- `item.type === "text"` (lines 60 and 72). -/
def isTextItem (it : Json) : Bool :=
  match Json.getF it "type" with
  | some (.str t) => t = "text"
  | _ => false

/-- `content.length === 1 ? content[0] : content` (line 80). -/
def contentFallback (items : List Json) : Json :=
  match items with
  | [x] => x
  | _ => Json.arr items

/-- Embedding of `_convertCallToolResult` (src/tools.ts lines 46-86).
The argument is the result object; a thrown `ToolException` is an
`Except.error` with the exception message. -/
def convertCallToolResult (result : Json) : Except String Json :=
  -- line 50: if (!result) return ""
  if !result.truthy then Except.ok (Json.str "") else
  -- line 56: if (result.isError)
  if otruthy (Json.getF result "isError") then
    match Json.getF result "content" with
    | some (.arr items) =>
      -- line 60: find the first text-typed item
      match items.find? isTextItem with
      | some it =>
        -- line 61: if (textContent && textContent.text) — a falsy text
        -- (missing or empty) falls through to the generic message
        match Json.getF it "text" with
        | some tv =>
          if tv.truthy then Except.error (jsToString tv)
          else Except.error "Tool execution failed"
        | none => Except.error "Tool execution failed"
      | none => Except.error "Tool execution failed"
    | _ => Except.error "Tool execution failed"
  else
    match Json.getF result "content" with
    | some (.arr items) =>
      -- line 72: find the first text-typed item; return its text when the
      -- text field is present (undefined check, not truthiness)
      match items.find? isTextItem with
      | some it =>
        match Json.getF it "text" with
        | some tv => Except.ok tv
        | none => Except.ok (contentFallback items)
      | none => Except.ok (contentFallback items)
    | _ => Except.ok result  -- line 85: return result (the whole object)

/-- Embedding of `MCPToolAdapter._call` (src/tools.ts lines 516-588) for a
connected client.  `callOutcome` is the settlement of the
`client.callTool(...)` promise: `none` when no response ever arrives (the
await then suspends forever and `_call` never settles, hence the `Option`
result), `some (Except.error e)` when the transport throws, and
`some (Except.ok raw)` on a response.  There is no timer and no deadline
anywhere in `_call`. -/
def mcpToolCall (name : String) (callOutcome : Option (Except String Json)) :
    Option (Except String String) :=
  match callOutcome with
  | none => none
  | some (Except.error e) =>
    -- lines 570-574: wrap transport errors into a ToolException
    some (Except.error ("Error calling tool " ++ name ++ ": " ++ e))
  | some (Except.ok raw) =>
    -- line 539: if (!result) return ""
    if !raw.truthy then some (Except.ok "") else
    -- lines 545-548: typedResult = {isError: result.isError === true,
    --                               content: result.content || []}
    let typed := Json.obj
      [("isError", Json.bool (decide (Json.getF raw "isError" = some (Json.bool true)))),
       ("content", match Json.getF raw "content" with
         | some c => if c.truthy then c else Json.arr []
         | none => Json.arr [])]
    match convertCallToolResult typed with
    | Except.error m => some (Except.error m)   -- ToolException rethrown (line 569)
    | Except.ok v => some (Except.ok (jsToString v))  -- line 553: String(processedResult)

/-! ## Input coercion (src/tools.ts lines 290-399)

`_normalizeInput` relies on three JavaScript primitives that are modelled
abstractly: `JSON.parse` (returning `none` when it throws), the fenced
code-block regex match group, and the quote-repairing `replace` chain at
lines 349-351.  Both the embedding and the specification model below are
parameterized by the same primitives. -/

structure JsPrims where
  /-- `JSON.parse`; `none` models a thrown `SyntaxError`. -/
  jsonParse : String → Option Json
  /-- Group 1 of the fenced-code-block regex at line 324 (`none` when the
  regex does not match). -/
  fenceGroup : String → Option String
  /-- The unquoted-key / single-quote repairs at lines 349-351. -/
  fixQuotes : String → String

/-- JavaScript `s.trim()`: strip whitespace from both ends (modelled on the
character list so that it is computable by the kernel). -/
def jsTrim (s : String) : String :=
  String.mk (((s.data.dropWhile Char.isWhitespace).reverse.dropWhile
    Char.isWhitespace).reverse)

/-- `s.includes(c)` for a single character. -/
def containsCh (s : String) (c : Char) : Bool := s.data.contains c

/-- `pat` occurs as a contiguous sublist. -/
def listInfix (pat : List Char) : List Char → Bool
  | [] => List.isPrefixOf pat []
  | c :: rest => List.isPrefixOf pat (c :: rest) || listInfix pat rest

/-- `s.includes(pat)`. -/
def containsSub (s pat : String) : Bool := listInfix pat.data s.data

/-- `s.startsWith(pat)` / `s.endsWith(pat)` for one-character patterns. -/
def startsWithCh (s : String) (c : Char) : Bool := s.data.head? = some c

def endsWithCh (s : String) (c : Char) : Bool := s.data.getLast? = some c

/-- Lines 322-342: extract a fenced code block and parse it as JSON; a
missing fence, failed match, empty group or parse error yields `none`. -/
def fencedParse (p : JsPrims) (inputStr : String) : Option Json :=
  if containsSub inputStr "```" then
    match p.fenceGroup inputStr with
    | some g => if g = "" then none else p.jsonParse (jsTrim g)
    | none => none
  else none

/-- Lines 345-367: parse a `{...}`-shaped string after repairing unquoted
keys and single-quoted values. -/
def bracedParse (p : JsPrims) (inputStr : String) : Option Json :=
  if startsWithCh inputStr '\x7b' && endsWithCh inputStr '\x7d' then
    p.jsonParse (p.fixQuotes inputStr)
  else none

/-- Embedding of `_normalizeInput` (src/tools.ts lines 290-399). -/
def normalizeInput (p : JsPrims) (input : Json) : Json :=
  match input with
  | .null => Json.obj []   -- lines 295-298: null/undefined
  | .obj fs =>
    -- lines 301-309: a non-array object with keys is returned as-is; an
    -- empty object falls through every later rule to the {} fallback
    if fs.length > 0 then Json.obj fs else Json.obj []
  | .str s0 =>
    -- lines 316-319: empty after trimming
    if jsTrim s0 = "" then Json.obj []
    else
      -- lines 322-342: markdown code block falls through on any failure
      match fencedParse p (jsTrim s0) with
      | some j => j
      | none =>
        -- lines 345-367: JSON-like object string with quote repair
        match bracedParse p (jsTrim s0) with
        | some j => j
        | none =>
          -- lines 370-375: simple value without a colon or brace
          if !(containsCh (jsTrim s0) ':') && !(containsCh (jsTrim s0) '\x7b') then
            Json.obj [("input", Json.str (jsTrim s0))]
          else Json.obj []  -- line 398 fallback
  | .arr es => Json.obj [("inputs", Json.arr es)]   -- lines 379-384
  | .num n => Json.obj [("value", Json.num n)]      -- lines 387-392
  | .bool b => Json.obj [("value", Json.bool b)]    -- lines 387-392

/-! The specification model: the spec describes input coercion as an ordered
rule list tried in order with first match winning and parse errors falling
through; it applies only when the input is not already a well-formed
non-empty mapping.  String rules act on the trimmed string (the blank rule
already identifies a string with its trimming). -/

/-- Modelled from the spec: a well-formed non-empty mapping. -/
def wellFormedNonEmptyMapping : Json → Bool
  | .obj fs => fs.length > 0
  | _ => false

/-- Modelled from the spec: the ordered coercion rules of section 4.4. -/
def coercionRules (p : JsPrims) : List (Json → Option Json) :=
  [fun x => match x with   -- 1. empty/blank string
    | .str s => if jsTrim s = "" then some (Json.obj []) else none
    | _ => none,
   fun x => match x with   -- 2. fenced code block parsed as JSON
    | .str s => fencedParse p (jsTrim s)
    | _ => none,
   fun x => match x with   -- 3. brace-shaped string, quotes repaired
    | .str s => bracedParse p (jsTrim s)
    | _ => none,
   fun x => match x with   -- 4. plain scalar string
    | .str s =>
      if !containsCh (jsTrim s) ':' && !containsCh (jsTrim s) '\x7b' then
        some (Json.obj [("input", Json.str (jsTrim s))])
      else none
    | _ => none,
   fun x => match x with   -- 5. array
    | .arr es => some (Json.obj [("inputs", Json.arr es)])
    | _ => none,
   fun x => match x with   -- 6. number / boolean
    | .num n => some (Json.obj [("value", Json.num n)])
    | .bool b => some (Json.obj [("value", Json.bool b)])
    | _ => none]

def firstSome : List (Json → Option Json) → Json → Option Json
  | [], _ => none
  | r :: rs, x =>
    match r x with
    | some v => some v
    | none => firstSome rs x

/-- Modelled from the spec: ordered first-match coercion with a final `{}`
fallback (rule 7). -/
def coercionSpec (p : JsPrims) (x : Json) : Json :=
  if wellFormedNonEmptyMapping x then x
  else (firstSome (coercionRules p) x).getD (Json.obj [])

/-! ## The multi-server client (src/client.ts)

`MultiServerMCPClient` validates connection specs in its constructor
(dropping invalid ones with a warning), connects each one in
`initializeConnections` with per-connection fault isolation, and tears
everything down in `close`.  Clients and tools are opaque and modelled by
numeric identifiers; the transport/handshake/catalog outcomes of a
connection attempt are an oracle parameter. -/

/-- `typeof x === "object" && x !== null` (arrays included). -/
def objectLike : Json → Bool
  | .obj _ => true
  | .arr _ => true
  | _ => false

inductive Connection where
  | stdio (command : String) (args : List Json) (env : Option Json)
      (encoding : Option String) (encodingErrorHandler : Option String)
  | sse (url : String) (headers : Option Json) (useNodeEventSource : Option Bool)
  | programmatic (server : Json)
deriving DecidableEq

/-- Constructor validation of one connection spec (src/client.ts lines
58-148): an SSE spec needs a string `url`, a programmatic spec an
object `server`, anything else is treated as stdio and needs a string
`command` and an array `args`; invalid specs yield `none` (dropped with a
warning, never a throw). -/
def processEntry (config : Json) : Option Connection :=
  if !objectLike config then none
  else if Json.getF config "transport" = some (Json.str "sse") then
    match Json.getF config "url" with
    | some (.str url) =>
      some (.sse url
        (match Json.getF config "headers" with
         | some h => if objectLike h then some h else none
         | none => none)
        (match Json.getF config "useNodeEventSource" with
         | some (.bool b) => some b
         | _ => none))
    | _ => none
  else if Json.getF config "transport" = some (Json.str "programmatic") then
    match Json.getF config "server" with
    | some srv => if objectLike srv then some (.programmatic srv) else none
    | none => none
  else
    match Json.getF config "command" with
    | some (.str cmd) =>
      match Json.getF config "args" with
      | some (.arr as) =>
        some (.stdio cmd as
          (match Json.getF config "env" with
           | some e => if objectLike e then some e else none
           | none => none)
          (match Json.getF config "encoding" with
           | some (.str enc) => some enc
           | _ => none)
          (match Json.getF config "encodingErrorHandler" with
           | some (.str h) =>
             if h = "strict" ∨ h = "ignore" ∨ h = "replace" then some h else none
           | _ => none))
      | _ => none
    | _ => none

/-- The constructor loop over `Object.entries(connections)`. -/
def processConnections (cfg : List (String × Json)) : List (String × Connection) :=
  cfg.filterMap (fun e => (processEntry e.2).map (fun c => (e.1, c)))

/-- The mutable state of a `MultiServerMCPClient`: the `clients` and
`serverNameToTools` maps, the `cleanupFunctions` array, plus a trace of
every cleanup action that has been invoked so far (each cleanup is
identified by the connection name and client id it closes over). -/
structure RegState where
  clients : List (String × Nat)
  serverNameToTools : List (String × List Nat)
  cleanupFunctions : List (String × Nat)
  invoked : List (String × Nat)
deriving DecidableEq

def emptyReg : RegState := ⟨[], [], [], []⟩

/-- Outcome of one connection attempt: the transport/handshake may fail
(caught at lines 310-312), or a client connects and its tool catalog either
loads or fails (caught at lines 307-309). -/
inductive ConnOutcome where
  | connectFail
  | connected (clientId : Nat) (toolsResult : Except Unit (List Nat))

/-- Embedding of `initializeConnections` (src/client.ts lines 179-316):
for each processed connection, on successful connect the client is stored
(`Map.set`, replacing any previous entry under the name) and the cleanup is
pushed; tools are stored when the catalog loads.  No cleanup action is ever
invoked here. -/
def initConns (out : String → ConnOutcome) (conns : List (String × Connection))
    (s : RegState) : RegState :=
  conns.foldl (fun st nc =>
    match out nc.1 with
    | .connectFail => st
    | .connected cid tr =>
      let st1 := { st with clients := setF st.clients nc.1 cid,
                           cleanupFunctions := st.cleanupFunctions ++ [(nc.1, cid)] }
      match tr with
      | .ok ts => { st1 with serverNameToTools := setF st1.serverNameToTools nc.1 ts }
      | .error _ => st1) s

/-- `getClient` (src/client.ts lines 333-335). -/
def getClient (s : RegState) (serverName : String) : Option Nat :=
  lookupF s.clients serverName

/-- Embedding of `close` (src/client.ts lines 340-356): every stored
cleanup is invoked in order — a throwing cleanup (modelled by `fail`) is
caught and logged and the loop continues — and afterwards the cleanup list
and both maps are cleared. -/
def closeReg (fail : (String × Nat) → Bool) (s : RegState) : RegState :=
  let invokedNow := s.cleanupFunctions.foldl (fun acc c =>
    match (if fail c then Except.error () else Except.ok ()) with
    | .ok _ => acc ++ [c]
    | .error _ => acc ++ [c]) []
  { clients := [], serverNameToTools := [], cleanupFunctions := [],
    invoked := s.invoked ++ invokedNow }

/-- The single-connection helpers (`connectToServer`,
`connectToServerViaStdio`, `connectToServerViaSSE`, lines 365-446) replace
`this.connections` with a singleton map and call `initializeConnections`
on the existing registry state. -/
def connectSingle (out : String → ConnOutcome) (serverName : String)
    (conn : Connection) (s : RegState) : RegState :=
  initConns out [(serverName, conn)] s

/-! ## Resource utilities (src/utils/resource-utils.ts)

`listResources` races the `resources/list` request against a
`setTimeout`-driven rejection; `MCPToolAdapter._call` has no such race. -/

structure Resource where
  uri : String
  description : Option String
  mimeType : String
deriving DecidableEq

/-- How the raced request settles: `pending` when the response never
arrives (then only the timer can settle the race), `ok` on a
schema-conforming response, `zodErr` on a schema violation, `fail` on any
other rejection. -/
inductive ReqOutcome where
  | pending
  | ok (rs : List Resource)
  | zodErr (msg : String)
  | fail (msg : String)
deriving DecidableEq

/-- Embedding of `listResources` (src/utils/resource-utils.ts lines 35-84).
The result is always a settled `Except`: the `Promise.race` against the
timer (lines 49-62) guarantees the caller is never suspended indefinitely.
The outer catch (lines 78-83) wraps any rejection, including the timeout
one; a ZodError returns `[]` (lines 63-67). -/
def listResourcesModel (serverName : String) (client : Option Nat)
    (timeoutOpt : Option Nat) (out : ReqOutcome) : Except String (List Resource) :=
  match client with
  | none => Except.error ("Server " ++ serverName ++ " not found")
  | some _ =>
    -- line 45: options.timeout || DEFAULT_TIMEOUT (|| treats 0 as absent)
    let timeout := match timeoutOpt with
      | some n => if n = 0 then 5000 else n
      | none => 5000
    match out with
    | .pending =>
      Except.error ("Failed to list resources: Timeout listing resources after "
        ++ toString timeout ++ "ms")
    | .zodErr _ => Except.ok []
    | .ok rs => Except.ok rs
    | .fail m => Except.error ("Failed to list resources: " ++ m)

theorem normalizeInput_eq_spec (p : JsPrims) (x : Json) :
    normalizeInput p x = coercionSpec p x := by
  cases x with
  | null => rfl
  | bool b => rfl
  | num n => rfl
  | arr es => rfl
  | obj fs =>
    cases fs with
    | nil => rfl
    | cons hd tl => simp [normalizeInput, coercionSpec, wellFormedNonEmptyMapping]
  | str s0 =>
    simp only [normalizeInput, coercionSpec, wellFormedNonEmptyMapping, coercionRules,
      firstSome]
    by_cases h1 : jsTrim s0 = ""
    · simp [h1]
    · cases hf : fencedParse p (jsTrim s0) with
      | some j => simp [h1, hf]
      | none =>
        cases hb : bracedParse p (jsTrim s0) with
        | some j => simp [h1, hf, hb]
        | none =>
          by_cases h4 : (!containsCh (jsTrim s0) ':' && !containsCh (jsTrim s0) '\x7b') = true
          · simp [h1, hf, hb, h4]
          · simp [h1, hf, hb, h4]

/-- **C4** (input coercion): for every choice of JavaScript string/JSON
primitives and every raw input, `_normalizeInput` equals the ordered
first-match rule list of the specification (a well-formed non-empty mapping
is returned as-is; otherwise the rules blank-string, fenced code block,
brace-shaped string, plain scalar string, array, number/boolean are tried in
order with a final `{}` fallback); in particular `""` coerces to
`{}`, `"5"` to `{input: "5"}` and `["a","b"]` to
`{inputs: ["a","b"]}`. -/
theorem C4_input_coercion (p : JsPrims) :
    (∀ x : Json, normalizeInput p x = coercionSpec p x) ∧
    normalizeInput p (Json.str "") = Json.obj [] ∧
    normalizeInput p (Json.str "5") = Json.obj [("input", Json.str "5")] ∧
    normalizeInput p (Json.arr [Json.str "a", Json.str "b"]) =
      Json.obj [("inputs", Json.arr [Json.str "a", Json.str "b"])] :=
  ⟨normalizeInput_eq_spec p, rfl, rfl, rfl⟩

/-- **C5** (idempotence): normalizing an already-normalized schema returns a
structurally identical schema.  The second application is modelled by
`secondPass`: when the first pass wrote a `parent` annotation the second
`JSON.stringify` throws and the catch returns the argument unchanged;
otherwise `_ensureValidToolSchema` runs again and changes nothing. -/
theorem C5_normalization_idempotent (s : Json) :
    secondPass (ensureValidToolSchema s) = ensureValidToolSchema s :=
  ensureValid_secondPass_eq s

/-- **C2 counterexample**: an error result whose first text item has empty
(falsy) text rejects with the generic message, not with that item text. -/
theorem C2_counterexample :
    convertCallToolResult (Json.obj [("isError", Json.bool true),
      ("content", Json.arr [Json.obj [("type", Json.str "text"),
        ("text", Json.str "")]])]) = Except.error "Tool execution failed" ∧
    "Tool execution failed" ≠ "" := ⟨rfl, by decide⟩

/-- **C2** (amended): for every truthy call result with a truthy error flag,
the converter throws a `ToolException`; when the content is an array whose
first text-typed item has a present and truthy `text`, the message is that
text; when the first text item has an absent or falsy `text`, when no text
item exists, or when the content is not an array, the message is the generic
"Tool execution failed"; an error-flagged result never resolves
successfully. -/
theorem C2_error_result (result : Json)
    (hT : result.truthy = true)
    (hE : otruthy (Json.getF result "isError") = true) :
    (∀ v, convertCallToolResult result ≠ Except.ok v) ∧
    (∀ items it tv, Json.getF result "content" = some (Json.arr items) →
        items.find? isTextItem = some it → Json.getF it "text" = some tv →
        tv.truthy = true →
        convertCallToolResult result = Except.error (jsToString tv)) ∧
    (∀ items it tv, Json.getF result "content" = some (Json.arr items) →
        items.find? isTextItem = some it → Json.getF it "text" = some tv →
        tv.truthy = false →
        convertCallToolResult result = Except.error "Tool execution failed") ∧
    (∀ items it, Json.getF result "content" = some (Json.arr items) →
        items.find? isTextItem = some it → Json.getF it "text" = none →
        convertCallToolResult result = Except.error "Tool execution failed") ∧
    (∀ items, Json.getF result "content" = some (Json.arr items) →
        items.find? isTextItem = none →
        convertCallToolResult result = Except.error "Tool execution failed") ∧
    ((∀ items, Json.getF result "content" ≠ some (Json.arr items)) →
        convertCallToolResult result = Except.error "Tool execution failed") := by
  have hred : convertCallToolResult result =
      (match Json.getF result "content" with
       | some (.arr items) =>
         match items.find? isTextItem with
         | some it =>
           match Json.getF it "text" with
           | some tv =>
             if tv.truthy then Except.error (jsToString tv)
             else Except.error "Tool execution failed"
           | none => Except.error "Tool execution failed"
         | none => Except.error "Tool execution failed"
       | _ => Except.error "Tool execution failed") := by
    unfold convertCallToolResult
    rw [hT, hE]
    simp
  refine ⟨?_, ?_, ?_, ?_, ?_, ?_⟩
  · intro v h
    rw [hred] at h
    repeat split at h
    all_goals exact Except.noConfusion h
  · intro items it tv h1 h2 h3 h4
    rw [hred, h1]
    simp [h2, h3, h4]
  · intro items it tv h1 h2 h3 h4
    rw [hred, h1]
    simp [h2, h3, h4]
  · intro items it h1 h2 h3
    rw [hred, h1]
    simp [h2, h3]
  · intro items h1 h2
    rw [hred, h1]
    simp [h2]
  · intro hno
    rw [hred]
    cases hc : Json.getF result "content" with
    | none => rfl
    | some c =>
      cases c with
      | arr es => exact absurd hc (hno es)
      | null => rfl
      | bool b => rfl
      | num n => rfl
      | str s0 => rfl
      | obj fs => rfl

/-- Witness for **C2**: the spec examples — `boom` text gives message
`boom`; a lone non-text item gives the generic message — plus an error
result with no content array at all, which also gets the generic message. -/
theorem C2_error_result_witness :
    convertCallToolResult (Json.obj [("isError", Json.bool true),
      ("content", Json.arr [Json.obj [("type", Json.str "text"),
        ("text", Json.str "boom")]])]) = Except.error "boom" ∧
    convertCallToolResult (Json.obj [("isError", Json.bool true),
      ("content", Json.arr [Json.obj [("type", Json.str "other")]])]) =
      Except.error "Tool execution failed" ∧
    convertCallToolResult (Json.obj [("isError", Json.bool true)]) =
      Except.error "Tool execution failed" := by
  refine ⟨?_, ?_, ?_⟩
  · have h := (C2_error_result (Json.obj [("isError", Json.bool true),
      ("content", Json.arr [Json.obj [("type", Json.str "text"),
        ("text", Json.str "boom")]])]) (by decide) (by decide)).2.1
      [Json.obj [("type", Json.str "text"), ("text", Json.str "boom")]]
      (Json.obj [("type", Json.str "text"), ("text", Json.str "boom")])
      (Json.str "boom") (by decide) (by decide) (by decide) (by decide)
    rw [h]
    simp [jsToString]
  · exact (C2_error_result (Json.obj [("isError", Json.bool true),
      ("content", Json.arr [Json.obj [("type", Json.str "other")]])])
      (by decide) (by decide)).2.2.2.2.1
      [Json.obj [("type", Json.str "other")]] (by decide) (by decide)
  · exact (C2_error_result (Json.obj [("isError", Json.bool true)])
      (by decide) (by decide)).2.2.2.2.2
      (fun items h => Option.noConfusion h)

/-- **C3 counterexample**: a non-error result with two text items resolves to
the FIRST text item text, not to the full ordered content list. -/
theorem C3_counterexample :
    convertCallToolResult (Json.obj [("content", Json.arr
      [Json.obj [("type", Json.str "text"), ("text", Json.str "a")],
       Json.obj [("type", Json.str "text"), ("text", Json.str "b")]])]) =
      Except.ok (Json.str "a") ∧
    Json.str "a" ≠ Json.arr
      [Json.obj [("type", Json.str "text"), ("text", Json.str "a")],
       Json.obj [("type", Json.str "text"), ("text", Json.str "b")]] :=
  ⟨rfl, by decide⟩

/-- **C3** (amended): for every truthy result whose error flag is falsy, the
converter returns the `text` of the FIRST text-typed content item whenever
that item carries a `text` field (even when other items are present); when no
text item exists or the first text item lacks `text`, a one-element content
list collapses to its element and any other list is returned whole; a
non-array content returns the whole result object; and the adapter resolves
`{content: [{type: text, text: "8"}]}` to the string `"8"`. -/
theorem C3_success_result (result : Json)
    (hT : result.truthy = true)
    (hE : otruthy (Json.getF result "isError") = false) :
    (∀ items it tv, Json.getF result "content" = some (Json.arr items) →
        items.find? isTextItem = some it → Json.getF it "text" = some tv →
        convertCallToolResult result = Except.ok tv) ∧
    (∀ items it, Json.getF result "content" = some (Json.arr items) →
        items.find? isTextItem = some it → Json.getF it "text" = none →
        convertCallToolResult result = Except.ok (contentFallback items)) ∧
    (∀ items, Json.getF result "content" = some (Json.arr items) →
        items.find? isTextItem = none →
        convertCallToolResult result = Except.ok (contentFallback items)) ∧
    ((∀ items, Json.getF result "content" ≠ some (Json.arr items)) →
        convertCallToolResult result = Except.ok result) ∧
    mcpToolCall "add" (some (Except.ok (Json.obj [("content", Json.arr
      [Json.obj [("type", Json.str "text"), ("text", Json.str "8")]])]))) =
      some (Except.ok "8") := by
  have hred : convertCallToolResult result =
      (match Json.getF result "content" with
       | some (.arr items) =>
         match items.find? isTextItem with
         | some it =>
           match Json.getF it "text" with
           | some tv => Except.ok tv
           | none => Except.ok (contentFallback items)
         | none => Except.ok (contentFallback items)
       | _ => Except.ok result) := by
    unfold convertCallToolResult
    rw [hT, hE]
    simp
  refine ⟨?_, ?_, ?_, ?_, ?_⟩
  · intro items it tv h1 h2 h3
    rw [hred, h1]
    simp [h2, h3]
  · intro items it h1 h2 h3
    rw [hred, h1]
    simp [h2, h3]
  · intro items h1 h2
    rw [hred, h1]
    simp [h2]
  · intro hno
    rw [hred]
    cases hc : Json.getF result "content" with
    | none => rfl
    | some c =>
      cases c with
      | arr es => exact absurd hc (hno es)
      | null => rfl
      | bool b => rfl
      | num n => rfl
      | str s0 => rfl
      | obj fs => rfl
  · simp [mcpToolCall, convertCallToolResult, jsToString, Json.truthy, Json.getF,
      lookupF, otruthy, isTextItem, contentFallback]

/-- Witness for **C3**: the first conjunct applied to the spec `"8"` example
result object. -/
theorem C3_success_result_witness :
    convertCallToolResult (Json.obj [("content", Json.arr
      [Json.obj [("type", Json.str "text"), ("text", Json.str "8")]])]) =
      Except.ok (Json.str "8") :=
  (C3_success_result (Json.obj [("content", Json.arr
      [Json.obj [("type", Json.str "text"), ("text", Json.str "8")]])])
    (by decide) (by decide)).1
    [Json.obj [("type", Json.str "text"), ("text", Json.str "8")]]
    (Json.obj [("type", Json.str "text"), ("text", Json.str "8")])
    (Json.str "8") (by decide) (by decide) (by decide)

/-- **C1 counterexample**: a schema whose root has no `type: "object"` (here
only a `properties` map) is returned by the normalizer unchanged, so its
array-typed field `a`, which lacks `items`, is NOT repaired. -/
theorem C1_counterexample :
    (ensureValidToolSchema (Json.obj [("properties", Json.obj [("a",
        Json.obj [("type", Json.str "array")])])])).1 =
      Json.obj [("properties", Json.obj [("a", Json.obj [("type", Json.str "array")])])] ∧
    bareF [("type", Json.str "array")] = true := by
  constructor
  · simp [ensureValidToolSchema, Json.truthy, deepCopy_eq_id, lookupF]
  · decide

/-- **C1** (amended): the recursive repair `fixArrayProperties` leaves no
bare array anywhere along its traversal (object properties, object `items`,
`patternProperties` branches, `oneOf`/`anyOf`/`allOf` members), choosing the
written `items` by field name (`actions` gives the object item schema with
string `type` and `selector` properties; `formats` and every other name give
string items); the top-level normalizer applies this repair only to a root
schema with `type: "object"` (then its output has no bare array on the
traversal) and gives a bare root array schema string `items`; roots of any
other shape are not repaired (see the counterexample). -/
theorem C1_array_items_repair :
    (∀ nm pp j, noBare (fixA nm pp j).1 = true) ∧
    (∀ fs, lookupF fs "type" = some (Json.str "object") →
        noBare (ensureValidToolSchema (Json.obj fs)).1 = true) ∧
    (∀ fs, lookupF fs "type" = some (Json.str "array") →
        otruthy (lookupF fs "items") = false →
        (ensureValidToolSchema (Json.obj fs)).1 = Json.obj (setF fs "items" strItems)) ∧
    (∀ nm pp fs, bareF fs = true →
        Json.getF (fixA nm pp (Json.obj fs)).1 "items" =
          some (if isActionsF nm pp fs = true then actionsItemsDone else strItems)) := by
  refine ⟨noBare_fixA, ?_, ?_, ?_⟩
  · intro fs h
    rw [ensureValid_obj_objtype fs h]
    exact noBare_fixA none none _
  · intro fs h hi
    rw [ensureValid_obj_arr_bare fs h hi]
    rfl
  · intro nm pp fs h
    rw [fixA_obj2, h]
    rw [if_pos rfl, finishObj_fst]
    exact chainF_lookup_items_R3none_bare nm pp fs h

/-- Witness for **C1**: an object-rooted schema with a bare array property
is repaired; a bare root array schema gets string items; a bare object named
`actions` receives the `type`/`selector` item schema, one named `formats`
string items. -/
theorem C1_array_items_repair_witness :
    noBare (ensureValidToolSchema (Json.obj [("type", Json.str "object"),
      ("properties", Json.obj [("tags", Json.obj
        [("type", Json.str "array")])])])).1 = true ∧
    (ensureValidToolSchema (Json.obj [("type", Json.str "array")])).1 =
      Json.obj (setF [("type", Json.str "array")] "items" strItems) ∧
    Json.getF (fixA (some "actions") (some "actions")
      (Json.obj [("type", Json.str "array")])).1 "items" = some actionsItemsDone ∧
    Json.getF (fixA (some "formats") (some "formats")
      (Json.obj [("type", Json.str "array")])).1 "items" = some strItems := by
  refine ⟨?_, ?_, ?_, ?_⟩
  · exact C1_array_items_repair.2.1 _ (by decide)
  · exact C1_array_items_repair.2.2.1 _ (by decide) (by decide)
  · have h := C1_array_items_repair.2.2.2 (some "actions") (some "actions")
      [("type", Json.str "array")] (by decide)
    rw [h, if_pos (by decide)]
  · have h := C1_array_items_repair.2.2.2 (some "formats") (some "formats")
      [("type", Json.str "array")] (by decide)
    rw [h, if_neg (by decide)]

/-- A fold step of `initializeConnections` never touches names it does not
process: lookups under a name outside the remaining connection list pass
through. -/
theorem initConns_lookup_notin (out : String → ConnOutcome)
    (conns : List (String × Connection)) (s : RegState) (name : String)
    (h : name ∉ conns.map Prod.fst) :
    lookupF (initConns out conns s).clients name = lookupF s.clients name ∧
    lookupF (initConns out conns s).serverNameToTools name =
      lookupF s.serverNameToTools name := by
  induction conns generalizing s with
  | nil => exact ⟨rfl, rfl⟩
  | cons hd tl ih =>
    have hne : ¬hd.1 = name := by
      intro he
      exact h (by simp [he])
    have htl : name ∉ tl.map Prod.fst := by
      intro hm
      exact h (by simp [hm])
    cases hout : out hd.1 with
    | connectFail =>
      have : initConns out (hd :: tl) s = initConns out tl s := by
        simp [initConns, hout]
      rw [this]
      exact ih s htl
    | connected cid tr =>
      cases tr with
      | ok ts =>
        have : initConns out (hd :: tl) s = initConns out tl
            { s with clients := setF s.clients hd.1 cid,
                     cleanupFunctions := s.cleanupFunctions ++ [(hd.1, cid)],
                     serverNameToTools := setF s.serverNameToTools hd.1 ts } := by
          simp [initConns, hout]
        rw [this]
        have h2 := ih
          { s with clients := setF s.clients hd.1 cid,
                   cleanupFunctions := s.cleanupFunctions ++ [(hd.1, cid)],
                   serverNameToTools := setF s.serverNameToTools hd.1 ts } htl
        rw [h2.1, h2.2]
        exact ⟨lookupF_setF_ne _ _ _ _ hne, lookupF_setF_ne _ _ _ _ hne⟩
      | error e =>
        have : initConns out (hd :: tl) s = initConns out tl
            { s with clients := setF s.clients hd.1 cid,
                     cleanupFunctions := s.cleanupFunctions ++ [(hd.1, cid)] } := by
          simp [initConns, hout]
        rw [this]
        have h2 := ih
          { s with clients := setF s.clients hd.1 cid,
                   cleanupFunctions := s.cleanupFunctions ++ [(hd.1, cid)] } htl
        rw [h2.1, h2.2]
        exact ⟨lookupF_setF_ne _ _ _ _ hne, rfl⟩

/-- Per-connection fault isolation inside `initializeConnections`: under
distinct names, a connection whose connect and catalog both succeed ends up
in both maps, whatever happens to every other connection. -/
theorem initConns_lookup_ok (out : String → ConnOutcome)
    (conns : List (String × Connection)) (s : RegState) (name : String)
    (c : Connection) (cid : Nat) (ts : List Nat)
    (hmem : (name, c) ∈ conns) (hnd : (conns.map Prod.fst).Nodup)
    (hout : out name = ConnOutcome.connected cid (Except.ok ts)) :
    lookupF (initConns out conns s).clients name = some cid ∧
    lookupF (initConns out conns s).serverNameToTools name = some ts := by
  induction conns generalizing s with
  | nil => cases hmem
  | cons hd tl ih =>
    rcases List.mem_cons.mp hmem with he | hm
    · have hhd : hd.1 = name := by rw [← he]
      have hnotin : name ∉ tl.map Prod.fst := by
        have := (List.nodup_cons.mp hnd).1
        rw [hhd] at this
        exact this
      have hstep : initConns out (hd :: tl) s = initConns out tl
          { s with clients := setF s.clients hd.1 cid,
                   cleanupFunctions := s.cleanupFunctions ++ [(hd.1, cid)],
                   serverNameToTools := setF s.serverNameToTools hd.1 ts } := by
        simp [initConns, hhd, hout]
      rw [hstep]
      have h2 := initConns_lookup_notin out tl
        { s with clients := setF s.clients hd.1 cid,
                 cleanupFunctions := s.cleanupFunctions ++ [(hd.1, cid)],
                 serverNameToTools := setF s.serverNameToTools hd.1 ts } name hnotin
      rw [h2.1, h2.2, hhd]
      exact ⟨lookupF_setF_self _ _ _, lookupF_setF_self _ _ _⟩
    · have hnd2 := (List.nodup_cons.mp hnd).2
      cases hout2 : out hd.1 with
      | connectFail =>
        have : initConns out (hd :: tl) s = initConns out tl s := by
          simp [initConns, hout2]
        rw [this]
        exact ih s hm hnd2
      | connected cid2 tr =>
        cases tr with
        | ok ts2 =>
          have : initConns out (hd :: tl) s = initConns out tl
              { s with clients := setF s.clients hd.1 cid2,
                       cleanupFunctions := s.cleanupFunctions ++ [(hd.1, cid2)],
                       serverNameToTools := setF s.serverNameToTools hd.1 ts2 } := by
            simp [initConns, hout2]
          rw [this]
          exact ih
            { s with clients := setF s.clients hd.1 cid2,
                     cleanupFunctions := s.cleanupFunctions ++ [(hd.1, cid2)],
                     serverNameToTools := setF s.serverNameToTools hd.1 ts2 } hm hnd2
        | error e =>
          have : initConns out (hd :: tl) s = initConns out tl
              { s with clients := setF s.clients hd.1 cid2,
                       cleanupFunctions := s.cleanupFunctions ++ [(hd.1, cid2)] } := by
            simp [initConns, hout2]
          rw [this]
          exact ih
            { s with clients := setF s.clients hd.1 cid2,
                     cleanupFunctions := s.cleanupFunctions ++ [(hd.1, cid2)] } hm hnd2

/-- **C6**: a spec missing its transport-required field is dropped at
registration (an entry whose spec lacks the required `command`, `url` or
`server` contributes no connection), and connection attempts are
fault-isolated: under distinct names, a connection whose connect and catalog
succeed ends up in the client and tool maps whatever the outcome of every
other connection. -/
theorem C6_drop_and_isolation :
    (∀ name config cfg, processEntry config = none →
        processConnections ((name, config) :: cfg) = processConnections cfg) ∧
    (∀ config, Json.getF config "transport" ≠ some (Json.str "sse") →
        Json.getF config "transport" ≠ some (Json.str "programmatic") →
        Json.getF config "command" = none → processEntry config = none) ∧
    (∀ config, Json.getF config "transport" = some (Json.str "sse") →
        Json.getF config "url" = none → processEntry config = none) ∧
    (∀ config, Json.getF config "transport" = some (Json.str "programmatic") →
        Json.getF config "server" = none → processEntry config = none) ∧
    (∀ out conns s name c cid ts, (name, c) ∈ conns →
        (conns.map Prod.fst).Nodup →
        out name = ConnOutcome.connected cid (Except.ok ts) →
        lookupF (initConns out conns s).clients name = some cid ∧
        lookupF (initConns out conns s).serverNameToTools name = some ts) := by
  refine ⟨?_, ?_, ?_, ?_, ?_⟩
  · intro name config cfg h
    simp [processConnections, h]
  · intro config h1 h2 h3
    unfold processEntry
    split_ifs with g1
    · rfl
    · rw [h3]
  · intro config h1 h2
    unfold processEntry
    split_ifs with g1
    · rfl
    · rw [h2]
  · intro config h1 h2
    unfold processEntry
    split_ifs with g1 g2
    · rfl
    · exact absurd (h1.symm.trans g2) (by decide)
    · rw [h2]
  · intro out conns s name c cid ts hmem hnd hout
    exact initConns_lookup_ok out conns s name c cid ts hmem hnd hout

/-- Witness for **C6**: a config set with one stdio spec missing `command`,
a failing connection `bad` and a succeeding connection `good`: the invalid
spec is dropped and `good` still receives its client and tools. -/
theorem C6_drop_and_isolation_witness :
    processConnections [("broken", Json.obj [("args", Json.arr [])]),
      ("good", Json.obj [("transport", Json.str "programmatic"),
        ("server", Json.obj [])])] =
      processConnections [("good", Json.obj [("transport", Json.str "programmatic"),
        ("server", Json.obj [])])] ∧
    processEntry (Json.obj [("args", Json.arr [])]) = none ∧
    lookupF (initConns
      (fun n => if n = "good" then ConnOutcome.connected 7 (Except.ok [3, 4])
                else ConnOutcome.connectFail)
      [("bad", Connection.programmatic (Json.obj [])),
       ("good", Connection.programmatic (Json.obj []))] emptyReg).clients "good" =
      some 7 ∧
    lookupF (initConns
      (fun n => if n = "good" then ConnOutcome.connected 7 (Except.ok [3, 4])
                else ConnOutcome.connectFail)
      [("bad", Connection.programmatic (Json.obj [])),
       ("good", Connection.programmatic (Json.obj []))] emptyReg).serverNameToTools
      "good" = some [3, 4] := by
  have hdrop := C6_drop_and_isolation.1 "broken" (Json.obj [("args", Json.arr [])])
    [("good", Json.obj [("transport", Json.str "programmatic"),
      ("server", Json.obj [])])]
    (C6_drop_and_isolation.2.1 (Json.obj [("args", Json.arr [])])
      (by decide) (by decide) (by decide))
  have hiso := C6_drop_and_isolation.2.2.2.2
    (fun n => if n = "good" then ConnOutcome.connected 7 (Except.ok [3, 4])
              else ConnOutcome.connectFail)
    [("bad", Connection.programmatic (Json.obj [])),
     ("good", Connection.programmatic (Json.obj []))] emptyReg
    "good" (Connection.programmatic (Json.obj [])) 7 [3, 4]
    (by simp) (by decide) (by simp)
  exact ⟨hdrop, C6_drop_and_isolation.2.1 (Json.obj [("args", Json.arr [])])
    (by decide) (by decide) (by decide), hiso.1, hiso.2⟩

/-- The cleanup loop of `close` appends every cleanup to the invoked trace
whether or not it throws. -/
theorem closeReg_fold (fail : (String × Nat) → Bool) (l acc : List (String × Nat)) :
    l.foldl (fun acc c =>
      match (if fail c then Except.error () else Except.ok ()) with
      | .ok _ => acc ++ [c]
      | .error _ => acc ++ [c]) acc = acc ++ l := by
  induction l generalizing acc with
  | nil => simp
  | cons hd tl ih =>
    cases hf : fail hd <;> simp [hf, ih]

/-- **C7**: `close` invokes every stored cleanup action exactly once — the
invoked trace is extended by exactly the stored cleanup list, in order, even
when some cleanups throw (`fail` picks the throwing ones) — and afterwards
the client map, the tool map and the cleanup list are cleared, so the client
lookup returns nothing for every name. -/
theorem C7_close_invokes_all_and_clears (fail : (String × Nat) → Bool) (s : RegState) :
    (closeReg fail s).invoked = s.invoked ++ s.cleanupFunctions ∧
    (closeReg fail s).clients = [] ∧
    (closeReg fail s).serverNameToTools = [] ∧
    (closeReg fail s).cleanupFunctions = [] ∧
    (∀ name, getClient (closeReg fail s) name = none) := by
  refine ⟨?_, rfl, rfl, rfl, fun name => rfl⟩
  show s.invoked ++ s.cleanupFunctions.foldl _ [] = s.invoked ++ s.cleanupFunctions
  rw [closeReg_fold fail s.cleanupFunctions []]
  simp

/-- `initializeConnections` never invokes a cleanup action. -/
theorem initConns_invoked (out : String → ConnOutcome)
    (conns : List (String × Connection)) (s : RegState) :
    (initConns out conns s).invoked = s.invoked := by
  induction conns generalizing s with
  | nil => rfl
  | cons hd tl ih =>
    cases hout : out hd.1 with
    | connectFail =>
      have : initConns out (hd :: tl) s = initConns out tl s := by
        simp [initConns, hout]
      rw [this, ih s]
    | connected cid tr =>
      cases tr with
      | ok ts =>
        have : initConns out (hd :: tl) s = initConns out tl
            { s with clients := setF s.clients hd.1 cid,
                     cleanupFunctions := s.cleanupFunctions ++ [(hd.1, cid)],
                     serverNameToTools := setF s.serverNameToTools hd.1 ts } := by
          simp [initConns, hout]
        rw [this]
        exact ih _
      | error e =>
        have : initConns out (hd :: tl) s = initConns out tl
            { s with clients := setF s.clients hd.1 cid,
                     cleanupFunctions := s.cleanupFunctions ++ [(hd.1, cid)] } := by
          simp [initConns, hout]
        rw [this]
        exact ih _

/-- **C8 counterexample**: connecting twice under the same name leaves the
superseded connection undestroyed — its cleanup is never invoked (the
invoked trace stays empty) and its cleanup entry stays registered alongside
the new one; only the client-map entry is overwritten. -/
theorem C8_counterexample :
    connectSingle (fun _ => ConnOutcome.connected 2 (Except.error ())) "a"
        (Connection.programmatic (Json.obj []))
        (connectSingle (fun _ => ConnOutcome.connected 1 (Except.error ())) "a"
          (Connection.programmatic (Json.obj [])) emptyReg) =
      { clients := [("a", 2)], serverNameToTools := [],
        cleanupFunctions := [("a", 1), ("a", 2)], invoked := [] } := rfl

/-- **C8** (amended): re-connecting under an existing name keeps at most one
live client per name — the client map is overwritten in place, so lookup
yields only the newest client id — but the superseded connection is NOT
destroyed: no cleanup is ever invoked during connection (the invoked trace
is unchanged), and the old cleanup entry is retained next to the new one. -/
theorem C8_supersede (out1 out2 : String → ConnOutcome) (name : String)
    (c1 c2 : Connection) (s : RegState) (cid1 cid2 : Nat)
    (tr1 tr2 : Except Unit (List Nat))
    (h1 : out1 name = ConnOutcome.connected cid1 tr1)
    (h2 : out2 name = ConnOutcome.connected cid2 tr2) :
    getClient (connectSingle out2 name c2 (connectSingle out1 name c1 s)) name =
      some cid2 ∧
    (connectSingle out2 name c2 (connectSingle out1 name c1 s)).cleanupFunctions =
      s.cleanupFunctions ++ [(name, cid1), (name, cid2)] ∧
    (∀ out conns st, (initConns out conns st).invoked = st.invoked) := by
  refine ⟨?_, ?_, fun out conns st => initConns_invoked out conns st⟩
  · cases tr1 <;> cases tr2 <;>
      simp [connectSingle, initConns, h1, h2, getClient, lookupF_setF_self]
  · cases tr1 <;> cases tr2 <;>
      simp [connectSingle, initConns, h1, h2]

/-- Witness for **C8**: the supersession theorem applied to the concrete
double connection of the counterexample scenario. -/
theorem C8_supersede_witness :
    getClient (connectSingle (fun _ => ConnOutcome.connected 2 (Except.error ())) "a"
      (Connection.programmatic (Json.obj []))
      (connectSingle (fun _ => ConnOutcome.connected 1 (Except.error ())) "a"
        (Connection.programmatic (Json.obj [])) emptyReg)) "a" = some 2 :=
  (C8_supersede (fun _ => ConnOutcome.connected 1 (Except.error ()))
    (fun _ => ConnOutcome.connected 2 (Except.error ())) "a"
    (Connection.programmatic (Json.obj [])) (Connection.programmatic (Json.obj []))
    emptyReg 1 2 (Except.error ()) (Except.error ()) rfl rfl).1

/-- **C9 counterexample**: `MCPToolAdapter._call` awaits `client.callTool`
with no timer and no race — when the response never settles, the call never
settles either, for any tool name and any configuration: there is no
deadline parameter anywhere in `_call`. -/
theorem C9_counterexample : mcpToolCall "add" none = none := rfl

/-- **C9** (amended): only the resource-listing path races the request
against a timer: with a connected client and a response that never arrives,
`listResources` rejects with a timeout-specific error naming the configured
deadline (a missing or zero `timeout` option falls back to 5000ms), while a
tool invocation through the adapter whose response never arrives never
settles at all. -/
theorem C9_timeout_only_resources (serverName : String) (cid : Nat)
    (topt : Option Nat) (t : Nat) (ht : topt = some t) (h0 : t ≠ 0) :
    listResourcesModel serverName (some cid) topt ReqOutcome.pending =
      Except.error ("Failed to list resources: Timeout listing resources after "
        ++ toString t ++ "ms") ∧
    listResourcesModel serverName (some cid) none ReqOutcome.pending =
      Except.error ("Failed to list resources: Timeout listing resources after "
        ++ toString (5000 : Nat) ++ "ms") ∧
    listResourcesModel serverName (some cid) (some 0) ReqOutcome.pending =
      Except.error ("Failed to list resources: Timeout listing resources after "
        ++ toString (5000 : Nat) ++ "ms") ∧
    (∀ nm, mcpToolCall nm none = none) := by
  refine ⟨?_, rfl, rfl, fun nm => rfl⟩
  rw [ht]
  simp [listResourcesModel, h0]

/-- Witness for **C9**: a 3ms deadline produces the 3ms timeout error. -/
theorem C9_timeout_only_resources_witness :
    listResourcesModel "srv" (some 0) (some 3) ReqOutcome.pending =
      Except.error ("Failed to list resources: Timeout listing resources after "
        ++ toString (3 : Nat) ++ "ms") :=
  (C9_timeout_only_resources "srv" 0 (some 3) 3 rfl (by decide)).1

/-- The argument object as it stands when `_ensureValidToolSchema` returns:
every repair (lines 117-139) is applied to `validatedSchema`, the deep copy
made at line 107, never to the `schema` parameter, so the argument
accompanies the result unchanged. -/
def ensureValidFrame (schema : Json) : Json × (Json × Bool) :=
  (schema, ensureValidToolSchema schema)

/-- The catch path of `_ensureValidToolSchema` (lines 147-153): on an
internal error the function returns its argument as-is. -/
def ensureValidOnError (schema : Json) : Json := schema

/-- **C10**: schema normalization does not mutate its argument: the repairs
run on `JSON.parse(JSON.stringify(schema))`, a fresh structurally identical
copy (`deepCopy` is the identity on JSON trees), the argument itself comes
out of the call structurally unchanged, and the internal-error path returns
the original object unchanged. -/
theorem C10_no_argument_mutation (s : Json) :
    deepCopy s = s ∧
    (ensureValidFrame s).1 = s ∧
    (ensureValidFrame s).2 = ensureValidToolSchema (deepCopy s) ∧
    ensureValidOnError s = s := by
  refine ⟨deepCopy_eq_id s, rfl, ?_, rfl⟩
  rw [deepCopy_eq_id s]
  rfl
